import Mathlib

set_option autoImplicit false

/-
Verification development for the table-editing core of
prosemirror-tables-sections.

The document tree is shallowly embedded: a table node contains an optional
caption followed by sections (head/body/foot), sections contain rows, rows
contain cells.  As in the host document model, every node contributes two
boundary tokens plus its content to the linear position space, so
`nodeSize = content size + 2`.  Positions computed below are relative to the
start of the table's content unless stated otherwise.

Sources embedded here:
 * `src/src/commands.ts` (commands: addColumn, deleteColumn, addRow,
   deleteRow, makeSection, mergeCells, splitCellWithType, setCellAttr,
   toggleHeader, cellsOverlapRectangle, rowIsHeader, ...)
 * `src/unnamed/part_001` = util.ts (getRow, rowsCount, addColSpan,
   removeColSpan, columnIsHeader, selectionCell, isInTable, ...)
The grid-map module (tablemap.ts), the cell-selection module
(cellselection.ts) and a few util.ts helpers are not included under src/;
definitions for those are modelled from the spec and carry a doc comment
saying so.
-/

/-- Role of a cell node: plain cell (`td`) or header cell (`th`). -/
inductive CellKind
  | cell
  | header_cell
deriving DecidableEq

/-- The typed cell attributes of util.ts (`CellAttrs`): colspan, rowspan and
the per-column width vector (`null` is `none`). -/
structure CellAttrs where
  colspan : Nat
  rowspan : Nat
  colwidth : Option (List Int)
deriving DecidableEq

/-- Stand-in for a cell's child content: its linear size and whether it is
the canonical empty placeholder (a single empty textblock). -/
structure CellContent where
  size : Nat
  empty : Bool
deriving DecidableEq

/-- A cell node.  `misc` holds the remaining (primitive-valued) attributes of
the attribute record, used by `setCellAttr`; the array-valued `colwidth`
lives in `attrs` (JavaScript `===` on arrays is reference equality, so
array-valued attributes are outside the `misc` model). -/
structure CellNode where
  kind : CellKind
  attrs : CellAttrs
  misc : List (String × Int)
  content : CellContent
deriving DecidableEq

def CellNode.nodeSize (c : CellNode) : Nat := c.content.size + 2

/-- A table row. -/
structure RowNode where
  cells : List CellNode
deriving DecidableEq

def RowNode.nodeSize (r : RowNode) : Nat := 2 + (r.cells.map CellNode.nodeSize).sum

/-- Role of a table section. -/
inductive SectionRole
  | head
  | body
  | foot
deriving DecidableEq

/-- A table section: a head, body or foot node containing rows. -/
structure SectionNode where
  role : SectionRole
  rows : List RowNode
deriving DecidableEq

def SectionNode.nodeSize (s : SectionNode) : Nat := 2 + (s.rows.map RowNode.nodeSize).sum

/-- A table node: an optional caption (given by its content size) followed by
the sections, mirroring the data-model invariant that the caption, when
present, is the first child. -/
structure TableNode where
  captionContent : Option Nat
  sections : List SectionNode
deriving DecidableEq

def TableNode.captionNodeSize (t : TableNode) : Nat :=
  match t.captionContent with
  | none => 0
  | some c => c + 2

/-- Positions (relative to table start) of the cells of one row, whose first
cell starts at `pos`. -/
def cellsWithPosGo (pos : Nat) : List CellNode → List (Nat × CellNode)
  | [] => []
  | c :: cs => (pos, c) :: cellsWithPosGo (pos + c.nodeSize) cs

def rowsCellsWithPosGo (pos : Nat) : List RowNode → List (Nat × CellNode)
  | [] => []
  | r :: rs => cellsWithPosGo (pos + 1) r.cells ++ rowsCellsWithPosGo (pos + r.nodeSize) rs

def sectionsCellsWithPosGo (pos : Nat) : List SectionNode → List (Nat × CellNode)
  | [] => []
  | s :: ss => rowsCellsWithPosGo (pos + 1) s.rows ++ sectionsCellsWithPosGo (pos + s.nodeSize) ss

/-- All cells of a table with their start positions relative to table start. -/
def TableNode.cellsWithPos (t : TableNode) : List (Nat × CellNode) :=
  sectionsCellsWithPosGo t.captionNodeSize t.sections

/-- Lookup `table.nodeAt(pos)` restricted to cell positions (the commands embedded
here only ever query cell positions). -/
def TableNode.nodeAt (t : TableNode) (pos : Nat) : Option CellNode :=
  (t.cellsWithPos.find? (fun pc => pc.1 == pos)).map (fun pc => pc.2)

/-- util.ts `rowsCount`: total number of logical rows (sections' rows,
caption excluded). -/
def rowsCount (t : TableNode) : Nat :=
  (t.sections.map (fun s => s.rows.length)).sum

/-- Result of util.ts `getRow`: the row node (none at/after the end), its
position and the index of its owning section (sections counted from 0, -1
when no section was reached). -/
structure RowResult where
  node : Option RowNode
  pos : Nat
  sectionIndex : Int
deriving DecidableEq

def rowsSizeUpTo (rs : List RowNode) (k : Nat) : Nat :=
  ((rs.take k).map RowNode.nodeSize).sum

/-- util.ts `getRow`, inner walk over the section children.  `rPos` is the
accumulated position, `prevRows` the number of rows of earlier sections,
`sIdx` the section counter (starts at -1).  An empty section is skipped
without advancing `rPos`, exactly as in the source. -/
def getRowAux (row : Nat) : List SectionNode → Nat → Nat → Int → RowResult
  | [], rPos, _, sIdx => ⟨none, rPos, sIdx⟩
  | sec :: rest, rPos, prevRows, sIdx =>
    if 0 < sec.rows.length then
      if prevRows + sec.rows.length ≤ row then
        if rest.isEmpty then
          ⟨none, rPos + sec.nodeSize - 1, sIdx + 1⟩
        else
          getRowAux row rest (rPos + sec.nodeSize) (prevRows + sec.rows.length) (sIdx + 1)
      else
        if prevRows ≤ row then
          ⟨sec.rows[row - prevRows]?, rPos + 1 + rowsSizeUpTo sec.rows (row - prevRows), sIdx + 1⟩
        else
          ⟨none, rPos + 1 + rowsSizeUpTo sec.rows sec.rows.length + 1, sIdx + 1⟩
    else
      getRowAux row rest rPos prevRows (sIdx + 1)

/-- util.ts `getRow(table, row, offset)`: the caption, being the first child,
contributes its nodeSize before the sections are walked. -/
def getRow (t : TableNode) (row : Nat) (offset : Nat) : RowResult :=
  getRowAux row t.sections (offset + t.captionNodeSize) 0 (-1)

/-- util.ts `rowPos`. -/
def rowPos (t : TableNode) (row : Nat) (pos : Nat) : Nat :=
  (getRow t row pos).pos

/-- Number of logical rows in the first `k` sections. -/
def prefixRows (t : TableNode) (k : Nat) : Nat :=
  ((t.sections.take k).map (fun s => s.rows.length)).sum

/-- Modelled from the spec: `isRowLastInSection` (util.ts, not included under
src/) — whether logical row `row` is the last row of a section other than
the last one.  `addRow` subtracts 2 from `getRow`'s position when inserting
directly after such a row, pulling the insertion point back from the start
of the following section to the inside of the row's own section ("If
inserted directly after the last row of a section, the row is appended
inside that section").  For the last row of the last section no adjustment
is wanted: `getRow`'s edge policy (spec 4.3) already resolves the
after-last-row index to the insertion point inside the last section, so a
`true` there would misplace the insertion; hence the non-last-section
condition. -/
def isRowLastInSection (t : TableNode) (row : Nat) : Bool :=
  (List.range t.sections.length).any
    (fun k => k + 1 < t.sections.length
      && 0 < (t.sections.getD k ⟨SectionRole.body, []⟩).rows.length
      && row + 1 == prefixRows t (k + 1))

/-- Position (relative to table start) where section `k` starts. -/
def sectionStartPos (t : TableNode) (k : Nat) : Nat :=
  t.captionNodeSize + ((t.sections.take k).map SectionNode.nodeSize).sum

/-- The insertion point immediately after the last row of section `k`,
still inside that section (one step before its closing boundary token). -/
def afterLastRowInsidePos (t : TableNode) (k : Nat) : Nat :=
  sectionStartPos t k + 1
    + (((t.sections.getD k ⟨SectionRole.body, []⟩).rows).map RowNode.nodeSize).sum

/-
The grid map (tablemap.ts is not included under src/; the whole TableMap
component below is modelled from spec sections 3 and 4.1/4.2).
-/

/-- A rectangle in half-open grid coordinates (tablemap.ts `Rect`). -/
structure Rect where
  left : Nat
  top : Nat
  right : Nat
  bottom : Nat
deriving DecidableEq

/-- Modelled from the spec (4.1): the grid map of a table — `width`,
`height`, the row-major `map` of cell start positions, and the per-section
row counts `sectionRows`. -/
structure TableMap where
  width : Nat
  height : Nat
  map : List Nat
  sectionRows : List Nat
deriving DecidableEq

/-- The triple (position, colspan, rowspan) of one cell, the data the grid-map walk
needs. -/
abbrev CellPCR := Nat × Nat × Nat

/-- One grid column's carry state while scanning rows top to bottom:
`some (p, k)` when the column is claimed by the cell at position `p` for `k`
more rows (including the current one). -/
abbrev ActiveCol := Option (Nat × Nat)

def rowPCR (pos : Nat) : List CellNode → List CellPCR
  | [] => []
  | c :: cs => (pos, c.attrs.colspan, c.attrs.rowspan) :: rowPCR (pos + c.nodeSize) cs

def rowsPCR (pos : Nat) : List RowNode → List (List CellPCR)
  | [] => []
  | r :: rs => rowPCR (pos + 1) r.cells :: rowsPCR (pos + r.nodeSize) rs

def sectionsPCR (pos : Nat) : List SectionNode → List (List CellPCR)
  | [] => []
  | s :: ss => rowsPCR (pos + 1) s.rows ++ sectionsPCR (pos + s.nodeSize) ss

/-- The logical rows of a table, each as the list of its cells'
(position, colspan, rowspan). -/
def TableNode.logicalRows (t : TableNode) : List (List CellPCR) :=
  sectionsPCR t.captionNodeSize t.sections

/-- Modelled from the spec (4.1): fill one grid row.  Walk the columns left
to right; a column claimed by a rowspan from an earlier row keeps that
cell's position and its counter is decremented; otherwise the next cell of
the row claims `colspan` columns for `rowspan` rows.  On malformed input
(a row ending short) the remaining uncovered slots get position 0 — valid
tables never produce such slots.  The fuel argument dominates the number of
steps (cells plus active columns). -/
def fillRowGo : Nat → List CellPCR → List ActiveCol → List Nat × List ActiveCol
  | 0, _, _ => ([], [])
  | fuel + 1, cells, act =>
    match act, cells with
    | some (p, k) :: act1, _ =>
      let r := fillRowGo fuel cells act1
      (p :: r.1, (if k ≤ 1 then none else some (p, k - 1)) :: r.2)
    | _, (p, cs, rs) :: cells1 =>
      let r := fillRowGo fuel cells1 (act.drop cs)
      (List.replicate cs p ++ r.1,
       List.replicate cs (if rs ≤ 1 then none else some (p, rs - 1)) ++ r.2)
    | none :: act1, [] =>
      let r := fillRowGo fuel [] act1
      (0 :: r.1, none :: r.2)
    | [], [] => ([], [])

def fillRow (cells : List CellPCR) (act : List ActiveCol) : List Nat × List ActiveCol :=
  fillRowGo (cells.length + act.length + 1) cells act

/-- Modelled from the spec (4.1): scan the logical rows, threading the
per-column carry state. -/
def buildRows : List (List CellPCR) → List ActiveCol → List (List Nat)
  | [], _ => []
  | r :: rs, act =>
    let p := fillRow r act
    p.1 :: buildRows rs p.2

/-- Modelled from the spec (4.1): build the grid map of a table.  Width is
the maximal row extent; rows are padded (with position 0) only for malformed
tables. -/
def TableMap.get (t : TableNode) : TableMap :=
  let raw := buildRows t.logicalRows []
  let w := raw.foldr (fun r m => max r.length m) 0
  { width := w
    height := raw.length
    map := (raw.map (fun r => r ++ List.replicate (w - r.length) 0)).flatten
    sectionRows := t.sections.map (fun s => s.rows.length) }

/-- The grid slots (indices into `map`) holding position `pos`. -/
def TableMap.slotsOf (m : TableMap) (pos : Nat) : List Nat :=
  (List.range m.map.length).filter (fun i => m.map.getD i 0 == pos)

/-- Modelled from the spec (4.2): `findCell` — the grid rectangle covered by
the cell whose start position is `pos`; none when no slot holds `pos`. -/
def TableMap.findCell (m : TableMap) (pos : Nat) : Option Rect :=
  match m.slotsOf pos with
  | [] => none
  | i :: is =>
    let rowsOf := (i :: is).map (fun j => j / m.width)
    let colsOf := (i :: is).map (fun j => j % m.width)
    some { left := colsOf.foldr min (i % m.width)
           top := rowsOf.foldr min (i / m.width)
           right := colsOf.foldr max (i % m.width) + 1
           bottom := rowsOf.foldr max (i / m.width) + 1 }

/-- Modelled from the spec (4.2): the anchor (top-left) column of the cell at
`pos` (tablemap.ts `colCount`). -/
def TableMap.colCount (m : TableMap) (pos : Nat) : Nat :=
  match m.findCell pos with
  | some r => r.left
  | none => 0

/-- Modelled from the spec (4.2): the anchor row of the cell at `pos`. -/
def TableMap.rowCount (m : TableMap) (pos : Nat) : Nat :=
  match m.findCell pos with
  | some r => r.top
  | none => 0

/-- Modelled from the spec (4.2): `rectBetween` — the bounding box of the
two cells' rectangles. -/
def TableMap.rectBetween (m : TableMap) (a b : Nat) : Option Rect :=
  match m.findCell a, m.findCell b with
  | some ra, some rb =>
    some { left := min ra.left rb.left
           top := min ra.top rb.top
           right := max ra.right rb.right
           bottom := max ra.bottom rb.bottom }
  | _, _ => none

/-- The grid slot indices of `rect`, row-major. -/
def Rect.slots (m : TableMap) (r : Rect) : List Nat :=
  ((List.range (r.bottom - r.top)).map (fun i =>
    (List.range (r.right - r.left)).map (fun j =>
      (r.top + i) * m.width + (r.left + j)))).flatten

/-- Modelled from the spec (4.2): `cellsInRect` — the distinct start
positions, in row-major first-occurrence order, of the cells whose top-left
anchor slot lies in `rect`. -/
def TableMap.cellsInRect (m : TableMap) (r : Rect) : List Nat :=
  ((Rect.slots m r).map (fun i => m.map.getD i 0)).dedup.filter
    (fun p =>
      let a := (m.rowCount p, m.colCount p)
      r.top ≤ a.1 && a.1 < r.bottom && r.left ≤ a.2 && a.2 < r.right)

/-- Row index at which section `s` of the map starts. -/
def TableMap.sectionStartRow (m : TableMap) (s : Nat) : Nat :=
  ((m.sectionRows.take s)).sum

/-- Modelled from the spec (4.2): `sectionsInRect` — the section indices
whose row band intersects `rect`. -/
def TableMap.sectionsInRect (m : TableMap) (r : Rect) : List Nat :=
  (List.range m.sectionRows.length).filter
    (fun s => r.top < m.sectionStartRow (s + 1) && m.sectionStartRow s < r.bottom)

/-- Modelled from the spec (4.2): `rectOverOneSection` — all rows of `rect`
belong to a single section. -/
def TableMap.rectOverOneSection (m : TableMap) (r : Rect) : Bool :=
  (List.range m.sectionRows.length).any
    (fun s => m.sectionStartRow s ≤ r.top && r.bottom ≤ m.sectionStartRow (s + 1))

/-- Modelled from the spec (4.2/8): `positionAt` — the position where a cell
at grid slot (row, col) would be inserted: the first cell of that row at or
right of `col` that starts in the row, else the insertion point at the end
of the row.  Cells merely continuing from an earlier row have a start
position below the row's own start and are skipped, as in the source map. -/
def TableMap.positionAt (m : TableMap) (row col : Nat) (t : TableNode) : Nat :=
  let g := getRow t row 0
  let rowStart := g.pos
  let idxs := (List.range (m.width - col)).map (fun j => row * m.width + col + j)
  match idxs.find? (fun i => rowStart ≤ m.map.getD i 0) with
  | some i => m.map.getD i 0
  | none =>
    rowStart + (match g.node with
      | some rn => rn.nodeSize
      | none => 1) - 1

/-
Selections and editor state.  The host selection/resolved-position machinery
(prosemirror-state, cellselection.ts) is outside src/; following spec section
6 it is modelled at its interface: a selection is either a cell selection
(anchor and head cell positions, absolute document positions), a node
selection of a cell, or any other selection, recorded together with the cell
that `cellAround`/`cellNear` resolve for it (none when the selection does
not sit inside a table row).
-/

inductive Sel
  | cellSel (anchorPos headPos : Nat)
  | nodeSelCell (pos : Nat)
  | textNear (cellPos : Option Nat)
deriving DecidableEq

/-- An editor state whose document is a single table whose content starts at
absolute position `tableStart`. -/
structure EditorState where
  table : TableNode
  tableStart : Nat
  sel : Sel
deriving DecidableEq

/-- util.ts `isInTable`: the selection head sits inside a table row. -/
def isInTable (s : EditorState) : Bool :=
  match s.sel with
  | Sel.cellSel _ _ => true
  | Sel.nodeSelCell _ => true
  | Sel.textNear c => c.isSome

/-- util.ts `selectionCell`: for a cell selection the later of anchor/head
cell, for a node selection of a cell that cell, otherwise the cell found
around/near the head (`none` models the thrown RangeError). -/
def selectionCell (s : EditorState) : Option Nat :=
  match s.sel with
  | Sel.cellSel a h => some (if h < a then a else h)
  | Sel.nodeSelCell p => some p
  | Sel.textNear c => c

/-- commands.ts `TableRect`: a rectangle plus table start, grid map and
table node. -/
structure TableRect where
  left : Nat
  top : Nat
  right : Nat
  bottom : Nat
  tableStart : Nat
  map : TableMap
  table : TableNode
deriving DecidableEq

def TableRect.toRect (r : TableRect) : Rect :=
  ⟨r.left, r.top, r.right, r.bottom⟩

/-- commands.ts `selectedRect`: the selected rectangle (rectBetween for a
cell selection, the single cell's rectangle otherwise); `none` models the
hard failure when no cell resolves. -/
def selectedRect (s : EditorState) : Option TableRect :=
  match selectionCell s with
  | none => none
  | some cpos =>
    let m := TableMap.get s.table
    let r? := match s.sel with
      | Sel.cellSel a h => m.rectBetween (a - s.tableStart) (h - s.tableStart)
      | _ => m.findCell (cpos - s.tableStart)
    match r? with
    | none => none
    | some r => some ⟨r.left, r.top, r.right, r.bottom, s.tableStart, m, s.table⟩

/-
Transactions.  A transaction is the ordered list of mutation steps a command
queues, together with the current document (the table) those steps produce.
Positions inside steps are absolute document positions, as issued by the
source.
-/

inductive Step
  | insertCell (pos : Nat) (c : CellNode)
  | insertRow (pos : Nat) (cells : List CellNode)
  | deleteRange (dfrom dto : Nat)
  | setMarkup (pos : Nat) (kind : Option CellKind) (attrs : CellAttrs) (misc : List (String × Int))
  | replaceRange (dfrom dto : Nat)
  | replaceTable (t : TableNode)
  | setSel
deriving DecidableEq

/-- Position mapping through one step (the host transform's `map`):
insertions shift positions at/after the insertion point, deletions collapse
the deleted range.  `replaceRange` only rewrites cell content in the
commands embedded here and no later position computed by them crosses it,
so it maps positions unchanged. -/
def stepMapPos : Step → Nat → Nat
  | Step.insertCell pos c, p => if p < pos then p else p + c.nodeSize
  | Step.insertRow pos cells, p =>
    if p < pos then p else p + 2 + (cells.map CellNode.nodeSize).sum
  | Step.deleteRange a b, p => if p ≤ a then p else if p ≤ b then a else p - (b - a)
  | _, p => p

/-- Position mapping `tr.mapping.map` through a list of steps. -/
def mapThrough (steps : List Step) (p : Nat) : Nat :=
  steps.foldl (fun q st => stepMapPos st q) p

/- Structural surgery on the table, used to maintain the document carried by
a transaction. All positions `q` below are relative to table start. -/

def cellsModifyGo (q : Nat) (f : CellNode → CellNode) (pos : Nat) : List CellNode → List CellNode
  | [] => []
  | c :: cs => if pos == q then f c :: cs else c :: cellsModifyGo q f (pos + c.nodeSize) cs

def rowsModifyCellGo (q : Nat) (f : CellNode → CellNode) (pos : Nat) : List RowNode → List RowNode
  | [] => []
  | r :: rs => ⟨cellsModifyGo q f (pos + 1) r.cells⟩ :: rowsModifyCellGo q f (pos + r.nodeSize) rs

def sectionsModifyCellGo (q : Nat) (f : CellNode → CellNode) (pos : Nat) : List SectionNode → List SectionNode
  | [] => []
  | s :: ss =>
    ⟨s.role, rowsModifyCellGo q f (pos + 1) s.rows⟩ :: sectionsModifyCellGo q f (pos + s.nodeSize) ss

/-- Rewrite the cell starting at table-relative position `q`. -/
def TableNode.modifyCellAt (t : TableNode) (q : Nat) (f : CellNode → CellNode) : TableNode :=
  ⟨t.captionContent, sectionsModifyCellGo q f t.captionNodeSize t.sections⟩

def cellsDeleteGo (q : Nat) (pos : Nat) : List CellNode → List CellNode
  | [] => []
  | c :: cs => if pos == q then cs else c :: cellsDeleteGo q (pos + c.nodeSize) cs

def rowsDeleteCellGo (q : Nat) (pos : Nat) : List RowNode → List RowNode
  | [] => []
  | r :: rs => ⟨cellsDeleteGo q (pos + 1) r.cells⟩ :: rowsDeleteCellGo q (pos + r.nodeSize) rs

def sectionsDeleteCellGo (q : Nat) (pos : Nat) : List SectionNode → List SectionNode
  | [] => []
  | s :: ss =>
    ⟨s.role, rowsDeleteCellGo q (pos + 1) s.rows⟩ :: sectionsDeleteCellGo q (pos + s.nodeSize) ss

/-- Delete the cell starting at table-relative position `q`. -/
def TableNode.deleteCellAt (t : TableNode) (q : Nat) : TableNode :=
  ⟨t.captionContent, sectionsDeleteCellGo q t.captionNodeSize t.sections⟩

def cellsInsertGo (q : Nat) (newc : CellNode) (pos : Nat) : List CellNode → List CellNode
  | [] => if pos == q then [newc] else []
  | c :: cs => if pos == q then newc :: c :: cs else c :: cellsInsertGo q newc (pos + c.nodeSize) cs

def rowsInsertCellGo (q : Nat) (newc : CellNode) (pos : Nat) : List RowNode → List RowNode
  | [] => []
  | r :: rs => ⟨cellsInsertGo q newc (pos + 1) r.cells⟩ :: rowsInsertCellGo q newc (pos + r.nodeSize) rs

def sectionsInsertCellGo (q : Nat) (newc : CellNode) (pos : Nat) : List SectionNode → List SectionNode
  | [] => []
  | s :: ss =>
    ⟨s.role, rowsInsertCellGo q newc (pos + 1) s.rows⟩ :: sectionsInsertCellGo q newc (pos + s.nodeSize) ss

/-- Insert a cell at table-relative position `q` (a cell boundary inside a
row, including the end-of-row insertion point). -/
def TableNode.insertCellAt (t : TableNode) (q : Nat) (newc : CellNode) : TableNode :=
  ⟨t.captionContent, sectionsInsertCellGo q newc t.captionNodeSize t.sections⟩

def rowsInsertGo (q : Nat) (newr : RowNode) (pos : Nat) : List RowNode → List RowNode
  | [] => if pos == q then [newr] else []
  | r :: rs => if pos == q then newr :: r :: rs else r :: rowsInsertGo q newr (pos + r.nodeSize) rs

def sectionsInsertRowGo (q : Nat) (newr : RowNode) (pos : Nat) : List SectionNode → List SectionNode
  | [] => []
  | s :: ss =>
    ⟨s.role, rowsInsertGo q newr (pos + 1) s.rows⟩ :: sectionsInsertRowGo q newr (pos + s.nodeSize) ss

/-- Insert a row at table-relative position `q` (a row boundary inside a
section, including the end-of-section insertion point). -/
def TableNode.insertRowAt (t : TableNode) (q : Nat) (newr : RowNode) : TableNode :=
  ⟨t.captionContent, sectionsInsertRowGo q newr t.captionNodeSize t.sections⟩

def rowsDeleteGo (q : Nat) (pos : Nat) : List RowNode → List RowNode
  | [] => []
  | r :: rs => if pos == q then rs else r :: rowsDeleteGo q (pos + r.nodeSize) rs

def sectionsDeleteRowGo (q : Nat) (pos : Nat) : List SectionNode → List SectionNode
  | [] => []
  | s :: ss =>
    ⟨s.role, rowsDeleteGo q (pos + 1) s.rows⟩ :: sectionsDeleteRowGo q (pos + s.nodeSize) ss

/-- Delete the row starting at table-relative position `q`. -/
def TableNode.deleteRowAt (t : TableNode) (q : Nat) : TableNode :=
  ⟨t.captionContent, sectionsDeleteRowGo q t.captionNodeSize t.sections⟩

def sectionsDeleteGo (q : Nat) (pos : Nat) : List SectionNode → List SectionNode
  | [] => []
  | s :: ss => if pos == q then ss else s :: sectionsDeleteGo q (pos + s.nodeSize) ss

/-- Delete the section starting at table-relative position `q`. -/
def TableNode.deleteSectionAt (t : TableNode) (q : Nat) : TableNode :=
  ⟨t.captionContent, sectionsDeleteGo q t.captionNodeSize t.sections⟩

/-- Start positions of the table's rows (relative to table start). -/
def TableNode.rowPositions (t : TableNode) : List (Nat × RowNode) :=
  (List.range (rowsCount t)).filterMap (fun i =>
    match getRow t i 0 with
    | ⟨some rn, p, _⟩ => some (p, rn)
    | _ => none)

/-- Start positions of the table's sections (relative to table start). -/
def TableNode.sectionPositions (t : TableNode) : List (Nat × SectionNode) :=
  (List.range t.sections.length).filterMap (fun k =>
    (t.sections.getD k ⟨SectionRole.body, []⟩) |> (fun s => some (sectionStartPos t k, s)))

/-- Apply one step to the document.  Ranges deleted by the embedded commands
are whole cells, whole rows (removeRow deletes the open range
`[rowStart, rowStart + nodeSize - 1)`, which the host replace normalizes to
removing the row) or whole sections; other ranges leave the document
untouched, as does the content-only `replaceRange`. -/
def applyStep (tableStart : Nat) (t : TableNode) : Step → TableNode
  | Step.setMarkup pos k attrs misc =>
    t.modifyCellAt (pos - tableStart) (fun c => ⟨k.getD c.kind, attrs, misc, c.content⟩)
  | Step.insertCell pos c => t.insertCellAt (pos - tableStart) c
  | Step.insertRow pos cells => t.insertRowAt (pos - tableStart) ⟨cells⟩
  | Step.deleteRange a b =>
    let q := a - tableStart
    match t.nodeAt q with
    | some c => if b - tableStart == q + c.nodeSize then t.deleteCellAt q else t
    | none =>
      match t.rowPositions.find? (fun pr => pr.1 == q) with
      | some (_, rn) =>
        if b - tableStart == q + rn.nodeSize - 1 || b - tableStart == q + rn.nodeSize then
          t.deleteRowAt q
        else t
      | none =>
        match t.sectionPositions.find? (fun ps => ps.1 == q) with
        | some (_, sn) => if b - tableStart == q + sn.nodeSize then t.deleteSectionAt q else t
        | none => t
  | Step.replaceRange _ _ => t
  | Step.replaceTable nt => nt
  | Step.setSel => t

/-- A transaction: queued steps plus the document they produce.  `start` is
the table's content start position in the document. -/
structure Tx where
  steps : List Step
  doc : TableNode
  start : Nat
deriving DecidableEq

def Tx.addStep (tx : Tx) (st : Step) : Tx :=
  ⟨tx.steps ++ [st], applyStep tx.start tx.doc st, tx.start⟩

/-- The accessor `state.tr`: the empty transaction on the current document. -/
def EditorState.tr (s : EditorState) : Tx :=
  ⟨[], s.table, s.tableStart⟩

/-- Position mapping of a transaction, `tr.mapping.map`. -/
def Tx.mapPos (tx : Tx) (p : Nat) : Nat :=
  mapThrough tx.steps p

/-- Sliced position mapping, `tr.mapping.slice(mapStart).map`. -/
def Tx.mapPosFrom (tx : Tx) (mapStart : Nat) (p : Nat) : Nat :=
  mapThrough (tx.steps.drop mapStart) p

/-
util.ts attribute helpers (source under src/unnamed/part_001) and the
header predicates.
-/

/-- JavaScript `array.splice(pos, n)` (removal, `pos ≥ 0`): the start index
clamps to the length. -/
def spliceDelete (l : List Int) (pos n : Nat) : List Int :=
  l.take pos ++ l.drop (pos + n)

/-- JavaScript `array.splice(pos, 0, 0)` repeated `n` times (insertion of
`n` zeros at `pos ≥ 0`, clamped to the length). -/
def spliceInsertZeros (l : List Int) (pos n : Nat) : List Int :=
  l.take pos ++ List.replicate n 0 ++ l.drop pos

/-- util.ts `removeColSpan`: shrink colspan by `n` and cut the corresponding
`colwidth` entries; when no positive width remains, `colwidth` collapses to
null. -/
def removeColSpan (attrs : CellAttrs) (pos n : Nat) : CellAttrs :=
  match attrs.colwidth with
  | none => ⟨attrs.colspan - n, attrs.rowspan, none⟩
  | some ws =>
    let ws1 := spliceDelete ws pos n
    ⟨attrs.colspan - n, attrs.rowspan, if ws1.any (fun w => 0 < w) then some ws1 else none⟩

/-- util.ts `addColSpan`: grow colspan by `n` and insert `n` zero widths at
`pos` when a `colwidth` vector is present. -/
def addColSpan (attrs : CellAttrs) (pos n : Nat) : CellAttrs :=
  match attrs.colwidth with
  | none => ⟨attrs.colspan + n, attrs.rowspan, none⟩
  | some ws => ⟨attrs.colspan + n, attrs.rowspan, some (spliceInsertZeros ws pos n)⟩

/-- util.ts `columnIsHeader`: every row's cell in column `col` is a header
cell (a missing cell counts as non-header). -/
def columnIsHeader (m : TableMap) (t : TableNode) (col : Nat) : Bool :=
  (List.range m.height).all (fun row =>
    (t.nodeAt (m.map.getD (col + row * m.width) 0)).map CellNode.kind
      == some CellKind.header_cell)

/-- commands.ts `rowIsHeader`: every column's cell in row `row` is a header
cell (the source uses optional chaining, so a missing cell is non-header). -/
def rowIsHeader (m : TableMap) (t : TableNode) (row : Nat) : Bool :=
  (List.range m.width).all (fun col =>
    (t.nodeAt (m.map.getD (col + row * m.width) 0)).map CellNode.kind
      == some CellKind.header_cell)

/-
commands.ts `addColumn`.
-/

/-- Model of `type.createAndFill()`: an empty cell of the given kind with default
attributes. -/
def emptyCellOf (k : CellKind) : CellNode :=
  ⟨k, ⟨1, 1, none⟩, [], ⟨2, true⟩⟩

/-- The column `addColumn` initially inherits from: the left neighbor when
`col > 0`, else the column at `col` (the right neighbor of the insertion
point). -/
def neighborCol (col : Nat) : Nat :=
  if 0 < col then col - 1 else col

/-- The final reference column of `addColumn`, after the header fallback:
`none` plays the role of the source's `null` (use a plain cell). -/
def addColumnRefCol (m : TableMap) (t : TableNode) (col : Nat) : Option Nat :=
  if columnIsHeader m t (neighborCol col) then
    if col == 0 || col == m.width then none else some col
  else some (neighborCol col)

/-- The kind of the cell anchored at grid slot (row, col). -/
def kindAtSlot (m : TableMap) (t : TableNode) (row col : Nat) : CellKind :=
  ((t.nodeAt (m.map.getD (row * m.width + col) 0)).map CellNode.kind).getD CellKind.cell

/-- The loop body of commands.ts `addColumn`: for each grid row, either grow
a column-spanning cell (advancing past its rowspan) or insert a fresh cell
whose type comes from the reference column.  The fuel bounds the iteration
count (the source loop `row++` always advances for valid rowspans). -/
def addColumnGo (r : TableRect) (col : Nat) (refCol : Option Nat) :
    Nat → Nat → Tx → Tx
  | 0, _, tx => tx
  | fuel + 1, row, tx =>
    if row < r.map.height then
      if 0 < col && col < r.map.width
          && r.map.map.getD (row * r.map.width + col - 1) 0
            == r.map.map.getD (row * r.map.width + col) 0 then
        match r.table.nodeAt (r.map.map.getD (row * r.map.width + col) 0) with
        | some cell =>
          addColumnGo r col refCol fuel (row + cell.attrs.rowspan)
            (tx.addStep (Step.setMarkup
              (tx.mapPos (r.tableStart + r.map.map.getD (row * r.map.width + col) 0)) none
              (addColSpan cell.attrs
                (col - r.map.colCount (r.map.map.getD (row * r.map.width + col) 0)) 1)
              cell.misc))
        | none => tx
      else
        addColumnGo r col refCol fuel (row + 1)
          (tx.addStep (Step.insertCell
            (tx.mapPos (r.tableStart + r.map.positionAt row col r.table))
            (emptyCellOf (match refCol with
              | none => CellKind.cell
              | some rc => kindAtSlot r.map r.table row rc))))
    else tx

/-- commands.ts `addColumn`. -/
def addColumn (tx : Tx) (r : TableRect) (col : Nat) : Tx :=
  addColumnGo r col (addColumnRefCol r.map r.table col) r.map.height 0 tx

/-- The kinds of the cells a transaction inserts, in order. -/
def insertedCellKinds (tx : Tx) : List CellKind :=
  tx.steps.filterMap (fun st =>
    match st with
    | Step.insertCell _ c => some c.kind
    | _ => none)

/-
commands.ts `addRow` and the row/column delete commands.
-/

/-- The reference row of `addRow` (`null` = `none`): the row above when
`row > 0`, else the row below; when that row is all header cells, boundary
inserts fall back to a plain cell and interior inserts use row `row`. -/
def addRowRefRow (m : TableMap) (t : TableNode) (row : Nat) : Option Nat :=
  if rowIsHeader m t (neighborCol row) then
    if row == 0 || row == m.height then none else some row
  else some (neighborCol row)

/-- The per-column loop of `addRow`: a column covered by a rowspan cell from
the row above gets that cell's rowspan incremented; otherwise a fresh cell
(typed from the reference row, skipped if that slot has no cell) is
collected for the new row. -/
def addRowCellsGo (r : TableRect) (row : Nat) (refRow : Option Nat) :
    Nat → Nat → Tx × List CellNode → Tx × List CellNode
  | 0, _, p => p
  | fuel + 1, col, p =>
    if col < r.map.width then
      if 0 < row && row < r.map.height
          && r.map.map.getD (row * r.map.width + col) 0
            == r.map.map.getD (row * r.map.width + col - r.map.width) 0 then
        match r.table.nodeAt (r.map.map.getD (row * r.map.width + col) 0) with
        | some cell =>
          addRowCellsGo r row refRow fuel (col + cell.attrs.colspan)
            (p.1.addStep (Step.setMarkup
              (r.tableStart + r.map.map.getD (row * r.map.width + col) 0) none
              ⟨cell.attrs.colspan, cell.attrs.rowspan + 1, cell.attrs.colwidth⟩ cell.misc), p.2)
        | none => p
      else
        match (match refRow with
          | none => some (emptyCellOf CellKind.cell)
          | some rr =>
            (r.table.nodeAt (r.map.map.getD (rr * r.map.width + col) 0)).map
              (fun c => emptyCellOf c.kind)) with
        | some c => addRowCellsGo r row refRow fuel (col + 1) (p.1, p.2 ++ [c])
        | none => addRowCellsGo r row refRow fuel (col + 1) p
    else p

/-- commands.ts `addRow`: compute the insertion position (pulled back inside
the previous section when adding directly after its last row), collect the
new row's cells, and insert the row node. -/
def addRow (tx : Tx) (r : TableRect) (row : Nat) : Tx :=
  (addRowCellsGo r row (addRowRefRow r.map r.table row) r.map.width 0 (tx, [])).1.addStep
    (Step.insertRow
      (if r.bottom == row && 0 < row && isRowLastInSection r.table (row - 1)
        then rowPos r.table row 0 + r.tableStart - 2
        else rowPos r.table row 0 + r.tableStart)
      (addRowCellsGo r row (addRowRefRow r.map r.table row) r.map.width 0 (tx, [])).2)

/-- commands.ts `removeColumn` per-row loop. -/
def removeColumnGo (r : TableRect) (col mapStart : Nat) : Nat → Nat → Tx → Tx
  | 0, _, tx => tx
  | fuel + 1, row, tx =>
    if row < r.map.height then
      let index := row * r.map.width + col
      let pos := r.map.map.getD index 0
      match r.table.nodeAt pos with
      | none => tx
      | some cell =>
        let tx1 :=
          if (0 < col && r.map.map.getD (index - 1) 0 == pos)
              || (col < r.map.width - 1 && r.map.map.getD (index + 1) 0 == pos) then
            tx.addStep (Step.setMarkup (tx.mapPosFrom mapStart (r.tableStart + pos)) none
              (removeColSpan cell.attrs (col - r.map.colCount pos) 1) cell.misc)
          else
            let start := tx.mapPosFrom mapStart (r.tableStart + pos)
            tx.addStep (Step.deleteRange start (start + cell.nodeSize))
        removeColumnGo r col mapStart fuel (row + cell.attrs.rowspan) tx1
    else tx

/-- commands.ts `removeColumn`. -/
def removeColumn (tx : Tx) (r : TableRect) (col : Nat) : Tx :=
  removeColumnGo r col tx.steps.length r.map.height 0 tx

/-- The right-to-left column loop of `deleteColumn`, re-deriving table and
map from the transaction's document after each removed column. -/
def deleteColumnGo : Nat → TableRect → Nat → Tx → Tx
  | 0, _, _, tx => tx
  | fuel + 1, rect, i, tx =>
    let tx1 := removeColumn tx rect i
    if i == rect.left then tx1
    else
      let table := tx1.doc
      deleteColumnGo fuel { rect with table := table, map := TableMap.get table } (i - 1) tx1

/-- commands.ts `deleteColumn`.  The full-width check sits inside the
dispatch branch, exactly as in the source; the result is the pair
(return value, transaction passed to dispatch, if any), `none` modelling a
thrown error. -/
def deleteColumn (s : EditorState) (dispatch : Bool) : Option (Bool × Option Tx) :=
  if !(isInTable s) then some (false, none)
  else if dispatch then
    match selectedRect s with
    | none => none
    | some rect =>
      if rect.left == 0 && rect.right == rect.map.width then some (false, none)
      else some (true, some (deleteColumnGo rect.right rect (rect.right - 1) (EditorState.tr s)))
  else some (true, none)

/-- commands.ts `removeRow` per-column loop: cells starting above shrink
their rowspan in place; cells continuing below are re-inserted one row down
with decremented rowspan. -/
def removeRowCellsGo (r : TableRect) (row mapFrom : Nat) : Nat → Nat → Tx → Tx
  | 0, _, tx => tx
  | fuel + 1, col, tx =>
    if col < r.map.width then
      let index := row * r.map.width + col
      let pos := r.map.map.getD index 0
      if 0 < row && pos == r.map.map.getD (index - r.map.width) 0 then
        match r.table.nodeAt pos with
        | none => tx
        | some cell =>
          let tx1 := tx.addStep (Step.setMarkup (tx.mapPosFrom mapFrom (pos + r.tableStart)) none
            ⟨cell.attrs.colspan, cell.attrs.rowspan - 1, cell.attrs.colwidth⟩ cell.misc)
          removeRowCellsGo r row mapFrom fuel (col + cell.attrs.colspan) tx1
      else if row < r.map.height && pos == r.map.map.getD (index + r.map.width) 0 then
        match r.table.nodeAt pos with
        | none => tx
        | some cell =>
          let copy : CellNode :=
            ⟨cell.kind, ⟨cell.attrs.colspan, cell.attrs.rowspan - 1, cell.attrs.colwidth⟩,
              cell.misc, cell.content⟩
          let newPos := r.map.positionAt (row + 1) col r.table
          let tx1 := tx.addStep (Step.insertCell
            (tx.mapPosFrom mapFrom (r.tableStart + newPos)) copy)
          removeRowCellsGo r row mapFrom fuel (col + cell.attrs.colspan) tx1
      else removeRowCellsGo r row mapFrom fuel (col + 1) tx
    else tx

/-- commands.ts `removeRow`: delete the row's open range, then fix up the
spanning cells. -/
def removeRow (tx : Tx) (r : TableRect) (row : Nat) : Tx :=
  let g := getRow r.table row 0
  let mapFrom := tx.steps.length
  let dfrom := g.pos + r.tableStart
  let dto := dfrom + (match g.node with
    | some rn => rn.nodeSize
    | none => 0) - 1
  let tx1 := tx.addStep (Step.deleteRange dfrom dto)
  removeRowCellsGo r row mapFrom r.map.width 0 tx1

/-- commands.ts `removeSection`: delete the whole section child with the
given section index. -/
def removeSection (tx : Tx) (r : TableRect) (sIdx : Nat) : Tx :=
  if sIdx < r.table.sections.length then
    let start := sectionStartPos r.table sIdx
    let sec := r.table.sections.getD sIdx ⟨SectionRole.body, []⟩
    tx.addStep (Step.deleteRange (r.tableStart + start) (r.tableStart + start + sec.nodeSize))
  else tx

/-- The initial section cursor of `deleteRow`: walk down from the last
section while its bottom row lies beyond the selection. -/
def deleteRowInitS (sbot : List Nat) (bottom : Nat) : Nat → Nat
  | 0 => 0
  | k + 1 => if bottom < sbot.getD (k + 1) 0 then deleteRowInitS sbot bottom k else k + 1

/-- The bottom-up row loop of `deleteRow`: a row band that exactly finishes
a fully selected section removes the whole section, otherwise the single
row is removed; table and map are re-derived after every removal. -/
def deleteRowGo (sbot srows : List Nat) (top : Nat) :
    Nat → TableRect → Nat → Int → Tx → Tx
  | 0, _, _, _, tx => tx
  | fuel + 1, rect, i, sIdx, tx =>
    let cond :=
      match sIdx with
      | Int.ofNat k =>
        k < sbot.length && i + 1 == sbot.getD k 0
          && top ≤ sbot.getD k 0 - srows.getD k 0
      | _ => false
    let k := sIdx.toNat
    let first := sbot.getD k 0 - srows.getD k 0
    let tx1 := if cond then removeSection tx rect k else removeRow tx rect i
    let i1 := if cond then first else i
    let sIdx1 := if cond then sIdx - 1 else sIdx
    if i1 ≤ top then tx1
    else
      let table := tx1.doc
      deleteRowGo sbot srows top fuel
        { rect with table := table, map := TableMap.get table } (i1 - 1) sIdx1 tx1

/-- commands.ts `deleteRow`.  The full-height check sits inside the dispatch
branch, as in the source. -/
def deleteRow (s : EditorState) (dispatch : Bool) : Option (Bool × Option Tx) :=
  if !(isInTable s) then some (false, none)
  else if dispatch then
    match selectedRect s with
    | none => none
    | some rect =>
      if rect.top == 0 && rect.bottom == rect.map.height then some (false, none)
      else
        let srows := rect.map.sectionRows
        let sbot := if srows.isEmpty then [0]
          else (List.range srows.length).map (fun k => (srows.take (k + 1)).sum)
        let s0 := deleteRowInitS sbot rect.bottom (srows.length - 1)
        some (true, some (deleteRowGo sbot srows rect.top (rect.bottom + 1) rect
          (rect.bottom - 1) (Int.ofNat s0) (EditorState.tr s)))
  else some (true, none)

/-
commands.ts `makeSection` (and `makeBody` / `makeHead` / `makeFoot`).
-/

/-- commands.ts `fixRowCells`: convert the row's plain cells to header
cells, keeping attributes and content. -/
def fixRowCells (r : RowNode) : RowNode :=
  ⟨r.cells.map (fun c =>
    if c.kind == CellKind.header_cell then c
    else ⟨CellKind.header_cell, c.attrs, c.misc, c.content⟩)⟩

/-- The mid-loop `return false` of `makeSection`: some section covers
exactly the selected row band and already has the requested role.  The
check happens before any mutation, so it is computed up front here. -/
def makeSectionSameSectionExists (t : TableNode) (role : SectionRole) (top bottom : Nat) : Bool :=
  (List.range t.sections.length).any (fun k =>
    prefixRows t k == top && prefixRows t (k + 1) == bottom
      && (t.sections.getD k ⟨SectionRole.body, []⟩).role == role)

/-- State of the `makeSection` rebuild walk: sections built so far, the
reference section, whether the walk is inside the selection, and the rows
accumulated for the pending section. -/
structure MakeSectionSt where
  contents : List SectionNode
  refSec : Option SectionNode
  inSel : Bool
  acc : List RowNode
deriving DecidableEq

/-- The inner row walk of `makeSection` over one overlapping section:
flush the accumulated rows when the selection starts, retype cells inside
the selection for head/foot, and emit the new section when the selection
ends. -/
def makeSectionRowsGo (role : SectionRole) (top bottom : Nat) (fixCells : Bool)
    (sec : SectionNode) (rowIndex : Nat) : List RowNode → Nat → MakeSectionSt → MakeSectionSt
  | [], _, st => st
  | rw :: rest, j, st =>
    let st1 : MakeSectionSt :=
      if rowIndex + j == top then
        { contents :=
            if st.acc.isEmpty then st.contents
            else st.contents ++ [⟨(st.refSec.getD sec).role, st.acc⟩]
          refSec := st.refSec
          inSel := true
          acc := [] }
      else st
    let rowOut := if st1.inSel && fixCells then fixRowCells rw else rw
    let acc1 := st1.acc ++ [rowOut]
    if rowIndex + j == bottom - 1 then
      let rs0 := st1.refSec.getD sec
      let rs1 := if rs0.role != role then sec else rs0
      let newSec : SectionNode := if rs1.role != role then ⟨role, acc1⟩ else ⟨rs1.role, acc1⟩
      makeSectionRowsGo role top bottom fixCells sec rowIndex rest (j + 1)
        ⟨st1.contents ++ [newSec], some sec, false, []⟩
    else
      makeSectionRowsGo role top bottom fixCells sec rowIndex rest (j + 1)
        { st1 with acc := acc1 }

/-- The outer section walk of `makeSection`. -/
def makeSectionSecsGo (role : SectionRole) (top bottom : Nat) (fixCells : Bool) :
    List SectionNode → Nat → MakeSectionSt → MakeSectionSt
  | [], _, st => st
  | sec :: rest, rowIndex, st =>
    let n := sec.rows.length
    if bottom ≤ rowIndex || rowIndex + n ≤ top then
      makeSectionSecsGo role top bottom fixCells rest (rowIndex + n)
        { st with contents := st.contents ++ [sec] }
    else
      let st1 : MakeSectionSt := { st with refSec := some (st.refSec.getD sec) }
      let st2 := makeSectionRowsGo role top bottom fixCells sec rowIndex sec.rows 0 st1
      let st3 : MakeSectionSt :=
        if !st2.inSel && !st2.acc.isEmpty then
          { contents := st2.contents ++ [⟨(st2.refSec.getD sec).role, st2.acc⟩]
            refSec := st2.refSec
            inSel := st2.inSel
            acc := [] }
        else st2
      makeSectionSecsGo role top bottom fixCells rest (rowIndex + n) st3

/-- The transaction built by the dispatch branch of `makeSection`: select
the table node, replace it with the rebuilt table, and restore a cell
selection over the original rectangle. -/
def makeSectionTx (role : SectionRole) (s : EditorState) (rect : TableRect) : Tx :=
  let fixCells := role == SectionRole.head || role == SectionRole.foot
  let st := makeSectionSecsGo role rect.top rect.bottom fixCells
    rect.table.sections 0 ⟨[], none, false, []⟩
  let newTable : TableNode := ⟨rect.table.captionContent, st.contents⟩
  ((EditorState.tr s).addStep Step.setSel
    |>.addStep (Step.replaceTable newTable)
    |>.addStep Step.setSel)

/-- commands.ts `makeSection`: refuse outside a table, refuse a head range
not starting at the top or a foot range not reaching the bottom, and (in
the dispatch branch) refuse retyping a section to its own role. -/
def makeSection (role : SectionRole) (s : EditorState) (dispatch : Bool) : Option (Bool × Option Tx) :=
  if !(isInTable s) then some (false, none)
  else
    match selectedRect s with
    | none => none
    | some rect =>
      if role == SectionRole.head && 0 < rect.top then some (false, none)
      else if role == SectionRole.foot && rect.bottom < rect.map.height then some (false, none)
      else if dispatch then
        if makeSectionSameSectionExists rect.table role rect.top rect.bottom then
          some (false, none)
        else some (true, some (makeSectionTx role s rect))
      else some (true, none)

def makeBody (s : EditorState) (dispatch : Bool) : Option (Bool × Option Tx) :=
  makeSection SectionRole.body s dispatch

def makeHead (s : EditorState) (dispatch : Bool) : Option (Bool × Option Tx) :=
  makeSection SectionRole.head s dispatch

def makeFoot (s : EditorState) (dispatch : Bool) : Option (Bool × Option Tx) :=
  makeSection SectionRole.foot s dispatch

/-
commands.ts `mergeCells` and `splitCellWithType`.
-/

/-- commands.ts `isEmpty`: the cell content is the canonical empty
placeholder. -/
def isEmptyCell (c : CellNode) : Bool := c.content.empty

/-- commands.ts `cellsOverlapRectangle`: some cell straddles the rectangle
boundary. -/
def cellsOverlapRectangle (m : TableMap) (r : Rect) : Bool :=
  let mp := m.map
  (((List.range (r.bottom - r.top)).any (fun i =>
      let indexLeft := (r.top + i) * m.width + r.left
      let indexRight := (r.top + i) * m.width + r.right - 1
      (0 < r.left && mp.getD indexLeft 0 == mp.getD (indexLeft - 1) 0)
        || (r.right < m.width && mp.getD indexRight 0 == mp.getD (indexRight + 1) 0)))
    || ((List.range (r.right - r.left)).any (fun i =>
      let indexTop := r.top * m.width + r.left + i
      let indexBottom := (r.bottom - 1) * m.width + r.left + i
      (0 < r.top && mp.getD indexTop 0 == mp.getD (indexTop - m.width) 0)
        || (r.bottom < m.height && mp.getD indexBottom 0 == mp.getD (indexBottom + m.width) 0))))

/-- The row-major slot walk of the `mergeCells` dispatch branch: the first
cell found becomes the merge target, every other distinct cell is deleted
and its non-empty content accumulated. -/
def mergeCellsScan (rect : TableRect) :
    List (Nat × Nat) → Tx → List Nat → Option (Nat × CellNode) → Nat →
    Tx × Option (Nat × CellNode) × Nat
  | [], tx, _, merged, contentSize => (tx, merged, contentSize)
  | rc :: rest, tx, seen, merged, contentSize =>
    let cellPos := rect.map.map.getD (rc.1 * rect.map.width + rc.2) 0
    match rect.table.nodeAt cellPos with
    | none => mergeCellsScan rect rest tx seen merged contentSize
    | some cell =>
      if seen.contains cellPos then mergeCellsScan rect rest tx seen merged contentSize
      else
        let seen1 := cellPos :: seen
        match merged with
        | none => mergeCellsScan rect rest tx seen1 (some (cellPos, cell)) contentSize
        | some _ =>
          let contentSize1 :=
            if isEmptyCell cell then contentSize else contentSize + cell.content.size
          let mapped := tx.mapPos (cellPos + rect.tableStart)
          let tx1 := tx.addStep (Step.deleteRange mapped (mapped + cell.nodeSize))
          mergeCellsScan rect rest tx1 seen1 merged contentSize1

/-- The dispatch branch of `mergeCells`; `none` is the source's bare
`return true` without dispatch when no cell was found. -/
def mergeCellsTx (s : EditorState) (rect : TableRect) : Option Tx :=
  let slotList := ((List.range (rect.bottom - rect.top)).map (fun i =>
    (List.range (rect.right - rect.left)).map (fun j =>
      (rect.top + i, rect.left + j)))).flatten
  let p := mergeCellsScan rect slotList (EditorState.tr s) [] none 0
  match p.2.1 with
  | none => none
  | some (mergedPos, mergedCell) =>
    let tx1 := p.1.addStep (Step.setMarkup (mergedPos + rect.tableStart) none
      ⟨(addColSpan mergedCell.attrs mergedCell.attrs.colspan
          (rect.right - rect.left - mergedCell.attrs.colspan)).colspan,
        rect.bottom - rect.top,
        (addColSpan mergedCell.attrs mergedCell.attrs.colspan
          (rect.right - rect.left - mergedCell.attrs.colspan)).colwidth⟩
      mergedCell.misc)
    let tx2 :=
      if p.2.2 != 0 then
        let endPos := mergedPos + 1 + mergedCell.content.size
        let startPos := if isEmptyCell mergedCell then mergedPos + 1 else endPos
        tx1.addStep (Step.replaceRange (startPos + rect.tableStart) (endPos + rect.tableStart))
      else tx1
    some (tx2.addStep Step.setSel)

/-- commands.ts `mergeCells`: refuse unless the selection is a cell
selection of two distinct cells whose rectangle lies in one section with no
cell straddling the boundary. -/
def mergeCells (s : EditorState) (dispatch : Bool) : Option (Bool × Option Tx) :=
  match s.sel with
  | Sel.cellSel a h =>
    if a == h then some (false, none)
    else
      match selectedRect s with
      | none => none
      | some rect =>
        if !(rect.map.rectOverOneSection rect.toRect) then some (false, none)
        else if cellsOverlapRectangle rect.map rect.toRect then some (false, none)
        else if dispatch then some (true, mergeCellsTx s rect)
        else some (true, none)
  | _ => some (false, none)

/-- The target cell `splitCellWithType` resolves: for a cell selection, the
single selected cell (refusing two-cell selections); for a node selection
of a cell, nothing (the cell is not an ancestor of `$from`); otherwise the
cell wrapping the selection head, if any. -/
def splitTarget (s : EditorState) : Option (Nat × CellNode) :=
  match s.sel with
  | Sel.cellSel a h =>
    if a == h then (s.table.nodeAt (a - s.tableStart)).map (fun c => (a, c)) else none
  | Sel.nodeSelCell _ => none
  | Sel.textNear none => none
  | Sel.textNear (some cp) => (s.table.nodeAt (cp - s.tableStart)).map (fun c => (cp, c))

/-- The per-slot attribute vector of `splitCellWithType`: base attributes
with span 1×1; when the original cell had a `colwidth`, each new column
keeps its own single width (null when that entry is zero). -/
def splitAttrs (base : CellAttrs) (colwidth : Option (List Int)) (i : Nat) : CellAttrs :=
  match colwidth with
  | none => base
  | some ws => ⟨base.colspan, base.rowspan, if ws.getD i 0 != 0 then some [ws.getD i 0] else none⟩

/-- The insertion loops of the `splitCellWithType` dispatch branch: one new
cell for every slot of the old footprint except the anchor slot, row-major. -/
def splitCellInsertGo (getType : CellNode → Nat → Nat → CellKind) (rect : TableRect)
    (cellNode : CellNode) (base : CellAttrs) (colwidth : Option (List Int)) :
    Nat → Nat → Tx → Tx
  | 0, _, tx => tx
  | fuel + 1, row, tx =>
    if row < rect.bottom then
      let pos0 := rect.map.positionAt row rect.left rect.table
      let pos := if row == rect.top then pos0 + cellNode.nodeSize else pos0
      let tx1 := (List.range (rect.right - rect.left)).foldl (fun tx i =>
        if rect.left + i == rect.left && row == rect.top then tx
        else
          tx.addStep (Step.insertCell (tx.mapPos (pos + rect.tableStart))
            ⟨getType cellNode row (rect.left + i), splitAttrs base colwidth i,
              cellNode.misc, ⟨2, true⟩⟩)) tx
      splitCellInsertGo getType rect cellNode base colwidth fuel (row + 1) tx1
    else tx

/-- commands.ts `splitCellWithType`: refuse when no single target cell
resolves or when it spans only 1×1; otherwise reset the target to 1×1 and
insert cells for the remaining slots. -/
def splitCellWithType (getType : CellNode → Nat → Nat → CellKind)
    (s : EditorState) (dispatch : Bool) : Option (Bool × Option Tx) :=
  match splitTarget s with
  | none => some (false, none)
  | some (cellPos, cellNode) =>
    if cellNode.attrs.colspan == 1 && cellNode.attrs.rowspan == 1 then some (false, none)
    else if dispatch then
      match selectedRect s with
      | none => none
      | some rect =>
        let base : CellAttrs := ⟨1, 1, cellNode.attrs.colwidth⟩
        let colwidth := cellNode.attrs.colwidth
        let tx1 := splitCellInsertGo getType rect cellNode base colwidth
          rect.bottom rect.top (EditorState.tr s)
        let tx2 := tx1.addStep (Step.setMarkup cellPos
          (some (getType cellNode rect.top rect.left)) (splitAttrs base colwidth 0)
          cellNode.misc)
        let tx3 := match s.sel with
          | Sel.cellSel _ _ => tx2.addStep Step.setSel
          | _ => tx2
        some (true, some tx3)
    else some (true, none)

/-- commands.ts `splitCell`: split using the original cell's own role for
every new cell. -/
def splitCell (s : EditorState) (dispatch : Bool) : Option (Bool × Option Tx) :=
  splitCellWithType (fun c _ _ => c.kind) s dispatch

/-
commands.ts `setCellAttr`.
-/

/-- Lookup of a primitive-valued attribute (`none` = absent/undefined). -/
def miscGet (c : CellNode) (name : String) : Option Int :=
  (c.misc.find? (fun kv => kv.1 == name)).map (fun kv => kv.2)

/-- The spread update on the primitive attribute record. -/
def miscSet (misc : List (String × Int)) (name : String) (v : Option Int) : List (String × Int) :=
  match v with
  | none => misc.filter (fun kv => kv.1 != name)
  | some x =>
    if (misc.find? (fun kv => kv.1 == name)).isSome then
      misc.map (fun kv => if kv.1 == name then (name, x) else kv)
    else misc ++ [(name, x)]

/-- Modelled from the spec: `CellSelection.forEachCell` (cellselection.ts is
not included under src/) visits the cells of the selection's rectangle with
their absolute positions, in the grid map's row-major order. -/
def selectionCells (s : EditorState) : List (Nat × CellNode) :=
  match s.sel with
  | Sel.cellSel a h =>
    let m := TableMap.get s.table
    match m.rectBetween (a - s.tableStart) (h - s.tableStart) with
    | none => []
    | some r =>
      (m.cellsInRect r).filterMap (fun p =>
        (s.table.nodeAt p).map (fun c => (p + s.tableStart, c)))
  | _ => []

/-- commands.ts `setCellAttr`: unavailable when the cell found by
`selectionCell` already carries the value; otherwise rewrite exactly the
selected cells whose value differs. -/
def setCellAttr (name : String) (value : Option Int)
    (s : EditorState) (dispatch : Bool) : Option (Bool × Option Tx) :=
  if !(isInTable s) then some (false, none)
  else
    match selectionCell s with
    | none => none
    | some cpos =>
      match s.table.nodeAt (cpos - s.tableStart) with
      | none => none
      | some cell =>
        if miscGet cell name == value then some (false, none)
        else if dispatch then
          let tx := match s.sel with
            | Sel.cellSel _ _ =>
              (selectionCells s).foldl (fun tx pc =>
                if miscGet pc.2 name != value then
                  tx.addStep (Step.setMarkup pc.1 none pc.2.attrs (miscSet pc.2.misc name value))
                else tx) (EditorState.tr s)
            | _ =>
              (EditorState.tr s).addStep
                (Step.setMarkup cpos none cell.attrs (miscSet cell.misc name value))
          some (true, some tx)
        else some (true, none)

/-
commands.ts header toggling.
-/

inductive ToggleHeaderType
  | column
  | row
  | cell
deriving DecidableEq

/-- The rectangle the deprecated toggle targets: the full columns / full
rows touched by the selection, or the selected rectangle itself. -/
def deprecatedToggleRect (rect : TableRect) (ty : ToggleHeaderType) : Rect :=
  match ty with
  | ToggleHeaderType.column => ⟨rect.left, 0, rect.right, rect.map.height⟩
  | ToggleHeaderType.row => ⟨0, rect.top, rect.map.width, rect.bottom⟩
  | ToggleHeaderType.cell => rect.toRect

/-- commands.ts `deprecated_toggleHeader`: demote every header cell in the
targeted rectangle; only when there was none, promote all its cells to
header cells. -/
def deprecated_toggleHeader (ty : ToggleHeaderType)
    (s : EditorState) (dispatch : Bool) : Option (Bool × Option Tx) :=
  if !(isInTable s) then some (false, none)
  else if dispatch then
    match selectedRect s with
    | none => none
    | some rect =>
      let cells := rect.map.cellsInRect (deprecatedToggleRect rect ty)
      let nodes := cells.filterMap (fun p => (rect.table.nodeAt p).map (fun c => (p, c)))
      let demote := nodes.filter (fun pc => pc.2.kind == CellKind.header_cell)
      let tx0 := EditorState.tr s
      let tx :=
        if demote.isEmpty then
          nodes.foldl (fun tx pc => tx.addStep (Step.setMarkup (rect.tableStart + pc.1)
            (some CellKind.header_cell) pc.2.attrs pc.2.misc)) tx0
        else
          demote.foldl (fun tx pc => tx.addStep (Step.setMarkup (rect.tableStart + pc.1)
            (some CellKind.cell) pc.2.attrs pc.2.misc)) tx0
      some (true, some tx)
  else some (true, none)

/-- commands.ts `isHeaderEnabledByType` for 'row': the first row consists of
header cells. -/
def isHeaderEnabledRow (rect : TableRect) : Bool :=
  (rect.map.cellsInRect ⟨0, 0, rect.map.width, 1⟩).all (fun p =>
    match rect.table.nodeAt p with
    | some c => c.kind == CellKind.header_cell
    | none => true)

/-- commands.ts `isHeaderEnabledByType` for 'column': the first column
consists of header cells. -/
def isHeaderEnabledColumn (rect : TableRect) : Bool :=
  (rect.map.cellsInRect ⟨0, 0, 1, rect.map.height⟩).all (fun p =>
    match rect.table.nodeAt p with
    | some c => c.kind == CellKind.header_cell
    | none => true)

/-- The non-deprecated branch of commands.ts `toggleHeader`: inspect the
first row/column (excluding an already-enabled header band) and set the
computed band of cells to the new type wholesale. -/
def toggleHeaderNew (ty : ToggleHeaderType)
    (s : EditorState) (dispatch : Bool) : Option (Bool × Option Tx) :=
  if !(isInTable s) then some (false, none)
  else if dispatch then
    match selectedRect s with
    | none => none
    | some rect =>
      let hRow := isHeaderEnabledRow rect
      let hCol := isHeaderEnabledColumn rect
      let isHeaderEnabled := match ty with
        | ToggleHeaderType.column => hRow
        | ToggleHeaderType.row => hCol
        | ToggleHeaderType.cell => false
      let startAt := if isHeaderEnabled then 1 else 0
      let cellsRect : Rect := match ty with
        | ToggleHeaderType.column => ⟨0, startAt, 1, rect.map.height⟩
        | ToggleHeaderType.row => ⟨startAt, 0, rect.map.width, 1⟩
        | ToggleHeaderType.cell => rect.toRect
      let newKind := match ty with
        | ToggleHeaderType.column => if hCol then CellKind.cell else CellKind.header_cell
        | ToggleHeaderType.row => if hRow then CellKind.cell else CellKind.header_cell
        | ToggleHeaderType.cell => CellKind.cell
      let tx := (rect.map.cellsInRect cellsRect).foldl (fun tx p =>
        match tx.doc.nodeAt p with
        | some cell => tx.addStep (Step.setMarkup (p + rect.tableStart)
            (some newKind) cell.attrs cell.misc)
        | none => tx) (EditorState.tr s)
      some (true, some tx)
  else some (true, none)

/-- commands.ts `toggleHeader`. -/
def toggleHeader (ty : ToggleHeaderType) (useDeprecatedLogic : Bool)
    (s : EditorState) (dispatch : Bool) : Option (Bool × Option Tx) :=
  if useDeprecatedLogic then deprecated_toggleHeader ty s dispatch
  else toggleHeaderNew ty s dispatch

/-- commands.ts `toggleHeaderRow` (deprecated logic). -/
def toggleHeaderRow (s : EditorState) (dispatch : Bool) : Option (Bool × Option Tx) :=
  toggleHeader ToggleHeaderType.row true s dispatch

/-- commands.ts `toggleHeaderColumn` (deprecated logic). -/
def toggleHeaderColumn (s : EditorState) (dispatch : Bool) : Option (Bool × Option Tx) :=
  toggleHeader ToggleHeaderType.column true s dispatch

/-- commands.ts `toggleHeaderCell` (deprecated logic). -/
def toggleHeaderCell (s : EditorState) (dispatch : Bool) : Option (Bool × Option Tx) :=
  toggleHeader ToggleHeaderType.cell true s dispatch

/-
Concrete tables and states used by the theorems below.
All tables sit at document position 0, so their content starts at
`tableStart = 1`.
-/

/-- A plain 1×1 cell with the canonical empty content (size 2). -/
def plainCell : CellNode := ⟨CellKind.cell, ⟨1, 1, none⟩, [], ⟨2, true⟩⟩

/-- A header 1×1 cell with empty content. -/
def headerCell : CellNode := ⟨CellKind.header_cell, ⟨1, 1, none⟩, [], ⟨2, true⟩⟩

/-- A plain spanning cell. -/
def spanCell (cs rs : Nat) : CellNode := ⟨CellKind.cell, ⟨cs, rs, none⟩, [], ⟨2, true⟩⟩

/-- A 2×2 single-body table of plain cells.  Cell positions (relative):
row 0 → 2, 6; row 1 → 12, 16. -/
def exTable22 : TableNode :=
  ⟨none, [⟨SectionRole.body, [⟨[plainCell, plainCell]⟩, ⟨[plainCell, plainCell]⟩]⟩]⟩

/-- Cell selection over the whole first row of `exTable22` (full width). -/
def exStateFullW : EditorState := ⟨exTable22, 1, Sel.cellSel 3 7⟩

/-- Cell selection over the whole first column of `exTable22` (full height). -/
def exStateFullH : EditorState := ⟨exTable22, 1, Sel.cellSel 3 13⟩

/-- Cell selection of the single top-left cell of `exTable22`. -/
def exStateCell00 : EditorState := ⟨exTable22, 1, Sel.cellSel 3 3⟩

/-- A 1×1 single-body table. -/
def exTable11 : TableNode := ⟨none, [⟨SectionRole.body, [⟨[plainCell]⟩]⟩]⟩

/-- Cell selection of the only cell of `exTable11` (full width and height). -/
def exState11 : EditorState := ⟨exTable11, 1, Sel.cellSel 3 3⟩

/-- The selected rectangle of `exState11`. -/
def exRect11 : TableRect := ⟨0, 0, 1, 1, 1, TableMap.get exTable11, exTable11⟩

/-- A one-row table whose first column is a header cell: [th, td]. -/
def exTableHeaderCol : TableNode :=
  ⟨none, [⟨SectionRole.body, [⟨[headerCell, plainCell]⟩]⟩]⟩

/-- A rect over `exTableHeaderCol` (only map/table/tableStart matter to
`addColumn`). -/
def exRectHeaderCol : TableRect :=
  ⟨0, 0, 1, 1, 1, TableMap.get exTableHeaderCol, exTableHeaderCol⟩

/-- Two body sections of one single-cell row each.  Relative positions:
section 0 at 0, its row at 1, its cell at 2; section 1 at 8, row at 9,
cell at 10. -/
def exTableTwoBodies : TableNode :=
  ⟨none, [⟨SectionRole.body, [⟨[plainCell]⟩]⟩, ⟨SectionRole.body, [⟨[plainCell]⟩]⟩]⟩

/-- Cell selection of the second body's cell of `exTableTwoBodies`. -/
def exStateRow1 : EditorState := ⟨exTableTwoBodies, 1, Sel.cellSel 11 11⟩

/-- The selected rectangle of `exStateRow1` (rows 1..2). -/
def exRectRow1 : TableRect :=
  ⟨0, 1, 1, 2, 1, TableMap.get exTableTwoBodies, exTableTwoBodies⟩

/-- A 1-column body with a plain first row and a header second row. -/
def exTableToggle : TableNode :=
  ⟨none, [⟨SectionRole.body, [⟨[plainCell]⟩, ⟨[headerCell]⟩]⟩]⟩

/-- Cell selection of the header cell in row 1 of `exTableToggle`. -/
def exStateToggle : EditorState := ⟨exTableToggle, 1, Sel.cellSel 9 9⟩

/-- A cell carrying the primitive attribute background = 5. -/
def exCellBg : CellNode := ⟨CellKind.cell, ⟨1, 1, none⟩, [("background", 5)], ⟨2, true⟩⟩

/-- One row [td, td(background=5)]. -/
def exTableAttr : TableNode := ⟨none, [⟨SectionRole.body, [⟨[plainCell, exCellBg]⟩]⟩]⟩

/-- Cell selection over both cells of `exTableAttr`; `selectionCell`
resolves to the later cell (position 7), the one with background = 5. -/
def exStateAttr : EditorState := ⟨exTableAttr, 1, Sel.cellSel 3 7⟩

/-- Row 0 = [td(rowspan 2), td], row 1 = [td]. -/
def exTableSpan : TableNode :=
  ⟨none, [⟨SectionRole.body, [⟨[spanCell 1 2, plainCell]⟩, ⟨[plainCell]⟩]⟩]⟩

/-- Text selection inside the 1×1 cell (position 6, absolute 7) of
`exTableSpan`. -/
def exStateSplit11 : EditorState := ⟨exTableSpan, 1, Sel.textNear (some 7)⟩

/-
Shared helper lemmas.
-/

theorem steps_addStep (tx : Tx) (st : Step) : (tx.addStep st).steps = tx.steps ++ [st] := rfl

theorem insertedCellKinds_addStep (tx : Tx) (st : Step) :
    insertedCellKinds (tx.addStep st) = insertedCellKinds tx ++
      (match st with
       | Step.insertCell _ c => [c.kind]
       | _ => []) := by
  cases st <;> simp [insertedCellKinds, Tx.addStep, List.filterMap_append]

theorem foldl_addStep_steps {α : Type} (l : List α) (f : α → Step) (tx0 : Tx) :
    (l.foldl (fun tx a => tx.addStep (f a)) tx0).steps = tx0.steps ++ l.map f := by
  induction l generalizing tx0 with
  | nil => simp
  | cons a l ih =>
    simp only [List.foldl_cons]
    rw [ih]
    simp [Tx.addStep]

theorem spliceDelete_spliceInsertZeros (ws : List Int) (pos n : Nat) (h : pos ≤ ws.length) :
    spliceDelete (spliceInsertZeros ws pos n) pos n = ws := by
  unfold spliceDelete spliceInsertZeros
  have h1 : (ws.take pos).length = pos := by
    simp [List.length_take, Nat.min_eq_left h]
  have h2 : ((ws.take pos ++ List.replicate n (0 : Int))).length = pos + n := by
    simp [h1]
  rw [List.drop_left' h2]
  rw [List.append_assoc]
  rw [List.take_left' h1]
  exact List.take_append_drop pos ws

/-- Claim C9, counterexample: with the insertion index past the end of the
`colwidth` vector, `addColSpan` clamps the insertion but `removeColSpan`
does not remove the inserted zeros, so the round trip gains a spurious
zero width. -/
theorem removeColSpan_addColSpan_cex :
    removeColSpan (addColSpan ⟨1, 1, some [5]⟩ 3 1) 3 1 ≠ ⟨1, 1, some [5]⟩ := by decide

/-- Claim C9 (amended): for attrs whose colwidth is null or contains at
least one positive entry, the round trip `removeColSpan ∘ addColSpan` is
the identity at positions within the colwidth vector (at every position
when colwidth is null), and `removeColSpan` never returns a colwidth
without a positive entry — it collapses such vectors to null. -/
theorem removeColSpan_addColSpan_inverse (attrs : CellAttrs) (pos n : Nat)
    (h : attrs.colwidth = none ∨
      ∃ ws, attrs.colwidth = some ws ∧ pos ≤ ws.length ∧ ∃ w ∈ ws, 0 < w) :
    removeColSpan (addColSpan attrs pos n) pos n = attrs ∧
    (∀ a2 : CellAttrs, ∀ p2 n2 : Nat, ∀ ws2 : List Int,
      (removeColSpan a2 p2 n2).colwidth = some ws2 → ∃ w ∈ ws2, 0 < w) := by
  constructor
  · obtain ⟨cs, rs, cw⟩ := attrs
    rcases h with h | ⟨ws, hws, hpos, w, hw, hw0⟩
    · simp only at h
      subst h
      simp [addColSpan, removeColSpan]
    · simp only at hws
      subst hws
      simp only [addColSpan, removeColSpan, spliceDelete_spliceInsertZeros ws pos n hpos]
      have hany : ws.any (fun w => decide (0 < w)) = true :=
        List.any_eq_true.mpr ⟨w, hw, by simpa using hw0⟩
      simp [hany]
  · intro a2 p2 n2 ws2 h2
    obtain ⟨cs2, rs2, cw2⟩ := a2
    cases cw2 with
    | none => simp [removeColSpan] at h2
    | some ws =>
      simp only [removeColSpan] at h2
      by_cases hany : (spliceDelete ws p2 n2).any (fun w => decide (0 < w)) = true
      · rw [if_pos hany] at h2
        obtain ⟨w, hw, hw0⟩ := List.any_eq_true.mp hany
        injection h2 with h3
        subst h3
        exact ⟨w, hw, by simpa using hw0⟩
      · rw [if_neg hany] at h2
        exact Option.noConfusion h2

/-- Witness for the amended C9 theorem at a concrete attribute record. -/
theorem removeColSpan_addColSpan_inverse_witness :
    removeColSpan (addColSpan ⟨2, 1, some [7]⟩ 1 2) 1 2 = ⟨2, 1, some [7]⟩ :=
  (removeColSpan_addColSpan_inverse ⟨2, 1, some [7]⟩ 1 2
    (Or.inr ⟨[7], rfl, by decide, 7, by decide, by decide⟩)).1

/-- Claim C8: when the cell `splitCellWithType` resolves spans only 1×1,
the command (and `splitCell`) returns false through the boolean channel —
no exception, no dispatched transaction. -/
theorem splitCell_one_by_one_refused (s : EditorState) (d : Bool) (p : Nat) (c : CellNode)
    (hres : splitTarget s = some (p, c))
    (hcs : c.attrs.colspan = 1) (hrs : c.attrs.rowspan = 1) :
    splitCell s d = some (false, none) ∧
    ∀ g, splitCellWithType g s d = some (false, none) := by
  have key : ∀ g, splitCellWithType g s d = some (false, none) := by
    intro g
    unfold splitCellWithType
    rw [hres]
    simp [hcs, hrs]
  exact ⟨key _, key⟩

/-- Witness for C8: splitting the 1×1 cell of `exTableSpan` is refused. -/
theorem splitCell_one_by_one_refused_witness :
    splitCell exStateSplit11 true = some (false, none) :=
  (splitCell_one_by_one_refused exStateSplit11 true 7
    ⟨CellKind.cell, ⟨1, 1, none⟩, [], ⟨2, true⟩⟩ (by decide) rfl rfl).1

/-- Claim C2, counterexample: without a dispatch callback neither
`deleteColumn` nor `deleteRow` checks the full-span condition — both return
true on a selection covering the whole table, where the claim asserts a
false return whether or not dispatch is supplied. -/
theorem deleteFullSpan_without_dispatch_cex :
    deleteColumn exStateFullW false = some (true, none) ∧
    deleteRow exStateFullH false = some (true, none) ∧
    (selectedRect exStateFullW).map (fun r => (r.left, r.right, r.map.width)) = some (0, 2, 2) ∧
    (selectedRect exStateFullH).map (fun r => (r.top, r.bottom, r.map.height)) = some (0, 2, 2) ∧
    isInTable exStateFullW = true ∧ isInTable exStateFullH = true := by decide

/-- Claim C2 (amended): when a dispatch callback is supplied, a rectangle
spanning all columns makes `deleteColumn` return false with nothing
dispatched, and one spanning all rows does the same for `deleteRow`. -/
theorem deleteFullSpan_refused_with_dispatch (s : EditorState) (rect : TableRect)
    (hin : isInTable s = true) (hr : selectedRect s = some rect) :
    (rect.left = 0 → rect.right = rect.map.width → deleteColumn s true = some (false, none)) ∧
    (rect.top = 0 → rect.bottom = rect.map.height → deleteRow s true = some (false, none)) := by
  constructor
  · intro h1 h2
    unfold deleteColumn
    rw [hin]
    simp [hr, h1, h2]
  · intro h1 h2
    unfold deleteRow
    rw [hin]
    simp [hr, h1, h2]

/-- Witness for the amended C2 theorem: the single cell of a 1×1 table
spans the full width and height; both deletions are refused. -/
theorem deleteFullSpan_refused_with_dispatch_witness :
    deleteColumn exState11 true = some (false, none) ∧
    deleteRow exState11 true = some (false, none) := by
  have h := deleteFullSpan_refused_with_dispatch exState11 exRect11 (by decide) (by decide)
  exact ⟨h.1 (by decide) (by decide), h.2 (by decide) (by decide)⟩

/-- Claim C3, counterexample: `makeHead` succeeds on a selection that is
not full-width (one cell of a two-column table) — head eligibility is about
starting at the top, not about width. -/
theorem makeHead_not_fullwidth_cex :
    (makeHead exStateCell00 true).map (fun r => r.1) = some true ∧
    (selectedRect exStateCell00).map (fun r => (r.left, r.right, r.map.width)) =
      some (0, 1, 2) := by decide

/-- Claim C3 (amended): `makeHead` succeeds only when the selected range
starts at the table's top (top = 0), `makeFoot` only when it reaches the
bottom (height <= bottom), and every refusal of `makeSection` dispatches
nothing. -/
theorem makeSection_eligibility (s : EditorState) (d : Bool) :
    (∀ res, makeHead s d = some res → res.1 = true →
      ∃ rect, selectedRect s = some rect ∧ rect.top = 0) ∧
    (∀ res, makeFoot s d = some res → res.1 = true →
      ∃ rect, selectedRect s = some rect ∧ rect.map.height ≤ rect.bottom) ∧
    (∀ role res, makeSection role s d = some res → res.1 = false → res.2 = none) := by
  have hbool : ∀ b : Bool, ¬ b = true → b = false := by decide
  refine ⟨?_, ?_, ?_⟩
  · intro res h htrue
    unfold makeHead makeSection at h
    by_cases hin : isInTable s
    · rw [if_neg (by simp [hin])] at h
      split at h
      · exact Option.noConfusion h
      · rename_i rect hsel
        split at h
        · injection h with h1
          rw [← h1] at htrue
          exact absurd htrue (by simp)
        · rename_i hguard
          refine ⟨rect, hsel, ?_⟩
          simp only [beq_self_eq_true, Bool.true_and, decide_eq_true_eq] at hguard
          omega
    · rw [if_pos (by simp [hbool _ hin])] at h
      injection h with h1
      rw [← h1] at htrue
      exact absurd htrue (by simp)
  · intro res h htrue
    unfold makeFoot makeSection at h
    by_cases hin : isInTable s
    · rw [if_neg (by simp [hin])] at h
      split at h
      · exact Option.noConfusion h
      · rename_i rect hsel
        rw [if_neg (by simp)] at h
        split at h
        · injection h with h1
          rw [← h1] at htrue
          exact absurd htrue (by simp)
        · rename_i hguard
          refine ⟨rect, hsel, ?_⟩
          simp only [beq_self_eq_true, Bool.true_and, decide_eq_true_eq] at hguard
          omega
    · rw [if_pos (by simp [hbool _ hin])] at h
      injection h with h1
      rw [← h1] at htrue
      exact absurd htrue (by simp)
  · intro role res h hfalse
    unfold makeSection at h
    by_cases hin : isInTable s
    · rw [if_neg (by simp [hin])] at h
      split at h
      · exact Option.noConfusion h
      · split at h
        · injection h with h1
          rw [← h1]
        · split at h
          · injection h with h1
            rw [← h1]
          · split at h
            · split at h
              · injection h with h1
                rw [← h1]
              · injection h with h1
                rw [← h1] at hfalse
                exact absurd hfalse (by simp)
            · injection h with h1
              rw [← h1] at hfalse
              exact absurd hfalse (by simp)
    · rw [if_pos (by simp [hbool _ hin])] at h
      injection h with h1
      rw [← h1]

/-- Witness for the amended C3 theorem: `makeHead` on the single-cell
selection of `exStateCell00` succeeds, and indeed its rectangle starts at
the top. -/
theorem makeSection_eligibility_witness :
    ∃ rect, selectedRect exStateCell00 = some rect ∧ rect.top = 0 :=
  (makeSection_eligibility exStateCell00 true).1
    ((makeHead exStateCell00 true).getD (false, none)) (by decide) (by decide)
/-- Every step produced by the `setCellAttr` cell-selection fold comes from
a visited cell whose attribute differs from the value being set. -/
theorem setCellAttrFold_mem (nm : String) (value : Option Int)
    (l : List (Nat × CellNode)) (tx0 : Tx) (st : Step)
    (hst : st ∈ (l.foldl (fun tx pc =>
      if miscGet pc.2 nm != value then
        tx.addStep (Step.setMarkup pc.1 none pc.2.attrs (miscSet pc.2.misc nm value))
      else tx) tx0).steps) :
    st ∈ tx0.steps ∨ ∃ pc, pc ∈ l ∧ miscGet pc.2 nm ≠ value ∧
      st = Step.setMarkup pc.1 none pc.2.attrs (miscSet pc.2.misc nm value) := by
  induction l generalizing tx0 with
  | nil => exact Or.inl hst
  | cons pc l ih =>
    simp only [List.foldl_cons] at hst
    rcases ih _ hst with hmem | ⟨pc2, hpc2, hne, heq⟩
    · by_cases hc : miscGet pc.2 nm != value
      · rw [if_pos hc] at hmem
        rw [steps_addStep] at hmem
        rcases List.mem_append.mp hmem with h1 | h1
        · exact Or.inl h1
        · right
          refine ⟨pc, List.mem_cons_self pc l, ?_, ?_⟩
          · simpa using hc
          · simpa using h1
      · rw [if_neg hc] at hmem
        exact Or.inl hmem
    · exact Or.inr ⟨pc2, List.mem_cons_of_mem _ hpc2, hne, heq⟩

/-- Every entry of `selectionCells` is a genuine cell of the table at its
recorded (absolute) position. -/
theorem selectionCells_mem (s : EditorState) (pc : Nat × CellNode)
    (h : pc ∈ selectionCells s) :
    s.table.nodeAt (pc.1 - s.tableStart) = some pc.2 := by
  unfold selectionCells at h
  dsimp only at h
  split at h
  · split at h
    · simp at h
    · rcases pc with ⟨q, c3⟩
      obtain ⟨p, hp, hmap⟩ := List.mem_filterMap.mp h
      rcases hn : s.table.nodeAt p with _ | c2 <;> rw [hn] at hmap
      · exact Option.noConfusion hmap
      · simp at hmap
        obtain ⟨h4, h5⟩ := hmap
        subst h5
        rw [← h4]
        simpa [Nat.add_sub_cancel] using hn
  · simp at h

/-- Claim C10: `setCellAttr` refuses (false, nothing dispatched) whenever
the single cell located by `selectionCell` already holds the value —
regardless of other selected cells — and when it applies, every dispatched
step rewrites a cell whose attribute differs from the value. -/
theorem setCellAttr_located_cell (s : EditorState) (nm : String) (value : Option Int)
    (d : Bool) (cpos : Nat) (cell : CellNode)
    (hin : isInTable s = true)
    (hsel : selectionCell s = some cpos)
    (hcell : s.table.nodeAt (cpos - s.tableStart) = some cell) :
    (miscGet cell nm = value → setCellAttr nm value s d = some (false, none)) ∧
    (∀ tx, setCellAttr nm value s d = some (true, some tx) →
      ∀ st, st ∈ tx.steps → ∃ q c2,
        st = Step.setMarkup q none c2.attrs (miscSet c2.misc nm value) ∧
        s.table.nodeAt (q - s.tableStart) = some c2 ∧ miscGet c2 nm ≠ value) := by
  constructor
  · intro hv
    unfold setCellAttr
    rw [if_neg (by simp [hin])]
    rw [hsel]
    simp [hcell, hv]
  · intro tx htx st hst
    unfold setCellAttr at htx
    rw [if_neg (by simp [hin])] at htx
    rw [hsel] at htx
    dsimp only at htx
    rw [hcell] at htx
    dsimp only at htx
    by_cases hv : miscGet cell nm == value
    · rw [if_pos hv] at htx
      simp at htx
    · rw [if_neg hv] at htx
      by_cases hd : d
      · rw [if_pos (by simp [hd])] at htx
        rcases hs2 : s.sel with ⟨a, b⟩ | p | c <;> rw [hs2] at htx <;> dsimp only at htx
        · simp only [Option.some.injEq, Prod.mk.injEq, true_and] at htx
          rw [← htx] at hst
          rcases setCellAttrFold_mem nm value (selectionCells s) (EditorState.tr s) st hst with
            hmem | ⟨pc, hpc, hne, heq⟩
          · simp [EditorState.tr] at hmem
          · exact ⟨pc.1, pc.2, heq, selectionCells_mem s pc hpc, hne⟩
        · simp only [Option.some.injEq, Prod.mk.injEq, true_and] at htx
          rw [← htx] at hst
          rw [steps_addStep] at hst
          simp only [EditorState.tr, List.nil_append, List.mem_singleton] at hst
          exact ⟨cpos, cell, hst, hcell, by simpa using hv⟩
        · simp only [Option.some.injEq, Prod.mk.injEq, true_and] at htx
          rw [← htx] at hst
          rw [steps_addStep] at hst
          simp only [EditorState.tr, List.nil_append, List.mem_singleton] at hst
          exact ⟨cpos, cell, hst, hcell, by simpa using hv⟩
      · rw [if_neg hd] at htx
        simp at htx

/-- Witness for C10: in `exStateAttr` the located cell already has
background = 5 even though the other selected cell differs, so the command
refuses. -/
theorem setCellAttr_located_cell_witness :
    setCellAttr "background" (some 5) exStateAttr true = some (false, none) :=
  (setCellAttr_located_cell exStateAttr "background" (some 5) true 7 exCellBg
    (by decide) (by decide) (by decide)).1 (by decide)

/-- Claim C1: `mergeCells` answers true only for a cell selection of two
distinct cells whose rectangle lies in one section with no cell straddling
the rectangle boundary; every refusal (false) carries no transaction, so
nothing is dispatched and the document is unchanged. -/
theorem mergeCells_refusal (s : EditorState) (d : Bool) (res : Bool × Option Tx)
    (h : mergeCells s d = some res) :
    (res.1 = false → res.2 = none) ∧
    (res.1 = true → ∃ a hp rect, s.sel = Sel.cellSel a hp ∧ a ≠ hp ∧
      selectedRect s = some rect ∧
      rect.map.rectOverOneSection rect.toRect = true ∧
      cellsOverlapRectangle rect.map rect.toRect = false) := by
  unfold mergeCells at h
  split at h
  · rename_i x a hp heq
    by_cases hah : a == hp
    · rw [if_pos hah] at h
      injection h with h1
      refine ⟨fun _ => by rw [← h1], fun htrue => ?_⟩
      rw [← h1] at htrue
      simp at htrue
    · rw [if_neg hah] at h
      split at h
      · exact Option.noConfusion h
      · rename_i rect heqr
        split at h
        · injection h with h1
          refine ⟨fun _ => by rw [← h1], fun htrue => ?_⟩
          rw [← h1] at htrue
          simp at htrue
        · rename_i hone
          split at h
          · injection h with h1
            refine ⟨fun _ => by rw [← h1], fun htrue => ?_⟩
            rw [← h1] at htrue
            simp at htrue
          · rename_i hov
            constructor
            · intro hfalse
              split at h <;>
                (injection h with h1; rw [← h1] at hfalse; simp at hfalse)
            · intro _
              refine ⟨a, hp, rect, heq, ?_, heqr, ?_, ?_⟩
              · simpa using hah
              · simpa using hone
              · simpa using hov
  · injection h with h1
    refine ⟨fun _ => by rw [← h1], fun htrue => ?_⟩
    rw [← h1] at htrue
    simp at htrue

/-- Witness for C1: merging the two cells of the first row of `exTable22`
is applicable, and the theorem yields the selection/geometry facts. -/
theorem mergeCells_refusal_witness :
    ∃ a hp rect, exStateFullW.sel = Sel.cellSel a hp ∧ a ≠ hp ∧
      selectedRect exStateFullW = some rect ∧
      rect.map.rectOverOneSection rect.toRect = true ∧
      cellsOverlapRectangle rect.map rect.toRect = false :=
  (mergeCells_refusal exStateFullW true
    ((mergeCells exStateFullW true).getD (false, none)) (by decide)).2 (by decide)

/-- Claim C6, counterexample: `toggleHeaderRow` on a table whose first row
and first column are not all-header demotes the selected row's header cell
to a plain cell, instead of promoting the acted-on rectangle to header
cells as the first-row/column-inspection policy would. -/
theorem toggleHeaderRow_deprecated_cex :
    (toggleHeaderRow exStateToggle true).map (fun r => (r.1, r.2.map Tx.steps)) =
      some (true, some [Step.setMarkup 9 (some CellKind.cell) ⟨1, 1, none⟩ []]) ∧
    rowIsHeader (TableMap.get exTableToggle) exTableToggle 0 = false ∧
    columnIsHeader (TableMap.get exTableToggle) exTableToggle 0 = false ∧
    (exTableToggle.nodeAt 8).map CellNode.kind = some CellKind.header_cell := by decide

/-- Claim C6 (amended): the exported toggle commands use the deprecated
policy: `toggleHeaderRow`/`toggleHeaderColumn`/`toggleHeaderCell` are
`toggleHeader` with `useDeprecatedLogic`, which targets the selection's
rectangle expanded to full rows/columns, demotes exactly the header cells
present in it, and promotes all of its cells only when none was a header. -/
theorem toggleHeader_deprecated_policy (ty : ToggleHeaderType) (s : EditorState)
    (rect : TableRect) (hin : isInTable s = true) (hr : selectedRect s = some rect) :
    toggleHeaderRow s true = toggleHeader ToggleHeaderType.row true s true ∧
    toggleHeaderColumn s true = toggleHeader ToggleHeaderType.column true s true ∧
    toggleHeaderCell s true = toggleHeader ToggleHeaderType.cell true s true ∧
    ∃ tx, toggleHeader ty true s true = some (true, some tx) ∧
      (let nodes := (rect.map.cellsInRect (deprecatedToggleRect rect ty)).filterMap
        (fun p => (rect.table.nodeAt p).map (fun c => (p, c)))
       if (nodes.filter (fun pc => pc.2.kind == CellKind.header_cell)).isEmpty then
         tx.steps = nodes.map (fun pc => Step.setMarkup (rect.tableStart + pc.1)
           (some CellKind.header_cell) pc.2.attrs pc.2.misc)
       else
         tx.steps = (nodes.filter (fun pc => pc.2.kind == CellKind.header_cell)).map
           (fun pc => Step.setMarkup (rect.tableStart + pc.1)
             (some CellKind.cell) pc.2.attrs pc.2.misc)) := by
  refine ⟨rfl, rfl, rfl, ?_⟩
  unfold toggleHeader deprecated_toggleHeader
  rw [if_pos rfl]
  rw [if_neg (by simp [hin])]
  rw [if_pos rfl]
  rw [hr]
  dsimp only
  by_cases hemp : ((rect.map.cellsInRect (deprecatedToggleRect rect ty)).filterMap
      (fun p => (rect.table.nodeAt p).map (fun c => (p, c)))).filter
        (fun pc => pc.2.kind == CellKind.header_cell) |>.isEmpty
  · rw [if_pos hemp]
    refine ⟨_, rfl, ?_⟩
    rw [if_pos hemp]
    rw [foldl_addStep_steps]
    simp [EditorState.tr]
  · rw [if_neg hemp]
    refine ⟨_, rfl, ?_⟩
    rw [if_neg hemp]
    rw [foldl_addStep_steps]
    simp [EditorState.tr]

/-- Witness for the amended C6 theorem at the concrete toggle state. -/
theorem toggleHeader_deprecated_policy_witness :
    ∃ tx, toggleHeader ToggleHeaderType.row true exStateToggle true = some (true, some tx) := by
  obtain ⟨-, -, -, tx, htx, -⟩ := toggleHeader_deprecated_policy ToggleHeaderType.row
    exStateToggle ⟨0, 1, 1, 2, 1, TableMap.get exTableToggle, exTableToggle⟩
    (by decide) (by decide)
  exact ⟨tx, htx⟩

/-- Claim C4, counterexample: inserting at column 1 of a one-row [th, td]
table (an interior position, since width is 2): the left neighbor column 0
is all header cells, yet the inserted cell is a plain cell, not the header
type the left neighbor would dictate. -/
theorem addColumn_header_neighbor_cex :
    insertedCellKinds (addColumn (Tx.mk [] exTableHeaderCol 1) exRectHeaderCol 1) =
      [CellKind.cell] ∧
    columnIsHeader (TableMap.get exTableHeaderCol) exTableHeaderCol 0 = true ∧
    (TableMap.get exTableHeaderCol).width = 2 := by decide

/-- The `addColumn` loop inserts, from the given row on, one cell per
remaining grid row, typed by the reference column. -/
theorem addColumnGo_kinds (r : TableRect) (col : Nat) (refCol : Option Nat)
    (hno : ∀ row, row < r.map.height → ¬(0 < col ∧ col < r.map.width ∧
      r.map.map.getD (row * r.map.width + col - 1) 0 = r.map.map.getD (row * r.map.width + col) 0)) :
    ∀ fuel row tx, r.map.height ≤ row + fuel →
      insertedCellKinds (addColumnGo r col refCol fuel row tx) =
        insertedCellKinds tx ++ (List.range' row (r.map.height - row)).map (fun rw =>
          match refCol with
          | none => CellKind.cell
          | some rc => kindAtSlot r.map r.table rw rc) := by
  intro fuel
  induction fuel with
  | zero =>
    intro row tx h
    have h0 : r.map.height - row = 0 := by omega
    simp [addColumnGo, h0]
  | succ f ih =>
    intro row tx h
    by_cases hrow : row < r.map.height
    · have hguard : ((0 < col && col < r.map.width
          && (r.map.map.getD (row * r.map.width + col - 1) 0
            == r.map.map.getD (row * r.map.width + col) 0)) = false) := by
        have hx := hno row hrow
        simp only [Bool.and_eq_false_iff, decide_eq_false_iff_not, beq_eq_false_iff_ne]
        by_cases h1 : 0 < col
        · by_cases h2 : col < r.map.width
          · right
            intro hcontra
            exact hx ⟨h1, h2, hcontra⟩
          · left
            right
            exact h2
        · left
          left
          exact h1
      simp only [addColumnGo]
      rw [if_pos hrow]
      rw [if_neg (by rw [hguard]; exact Bool.false_ne_true)]
      rw [ih (row + 1) _ (by omega)]
      rw [insertedCellKinds_addStep]
      have hrange : List.range' row (r.map.height - row) =
          row :: List.range' (row + 1) (r.map.height - (row + 1)) := by
        have h2 : r.map.height - row = (r.map.height - (row + 1)) + 1 := by omega
        rw [h2]
        rfl
      rw [hrange]
      simp [emptyCellOf]
    · have h0 : r.map.height - row = 0 := by omega
      simp only [addColumnGo]
      rw [if_neg hrow, h0]
      simp

/-- Claim C4 (amended): when no insertion point falls inside a
column-spanning cell, `addColumn` creates one cell per grid row; its type
comes from the adjacent column (left neighbor when col > 0, else the column
at the insertion point).  When that neighbor column is entirely header
cells, boundary inserts (col = 0 or col = width) fall back to a plain cell,
while interior inserts inherit from the column at the insertion position
(the right-hand neighbor) instead. -/
theorem addColumn_inserted_kinds (tx : Tx) (r : TableRect) (col : Nat)
    (hno : ∀ row, row < r.map.height → ¬(0 < col ∧ col < r.map.width ∧
      r.map.map.getD (row * r.map.width + col - 1) 0 = r.map.map.getD (row * r.map.width + col) 0)) :
    insertedCellKinds (addColumn tx r col) = insertedCellKinds tx ++
      (List.range r.map.height).map (fun row =>
        if columnIsHeader r.map r.table (neighborCol col) = true then
          if col = 0 ∨ col = r.map.width then CellKind.cell
          else kindAtSlot r.map r.table row col
        else kindAtSlot r.map r.table row (neighborCol col)) := by
  unfold addColumn
  rw [addColumnGo_kinds r col _ hno r.map.height 0 tx (by omega)]
  congr 1
  rw [List.range_eq_range' r.map.height]
  simp only [Nat.sub_zero]
  have hfun : (fun rw =>
      match addColumnRefCol r.map r.table col with
      | none => CellKind.cell
      | some rc => kindAtSlot r.map r.table rw rc) =
      (fun row =>
        if columnIsHeader r.map r.table (neighborCol col) = true then
          if col = 0 ∨ col = r.map.width then CellKind.cell
          else kindAtSlot r.map r.table row col
        else kindAtSlot r.map r.table row (neighborCol col)) := by
    funext rw0
    unfold addColumnRefCol
    by_cases hch : columnIsHeader r.map r.table (neighborCol col) = true
    · rw [if_pos hch, if_pos hch]
      by_cases hb : (col == 0 || col == r.map.width) = true
      · rw [if_pos hb, if_pos (by simpa using hb)]
      · rw [if_neg hb, if_neg (by simpa using hb)]
    · rw [if_neg hch, if_neg hch]
  rw [hfun]

/-- Witness for the amended C4 theorem at the concrete [th, td] table with
an interior insert at column 1. -/
theorem addColumn_inserted_kinds_witness :
    insertedCellKinds (addColumn (Tx.mk [] exTableHeaderCol 1) exRectHeaderCol 1) =
      insertedCellKinds (Tx.mk [] exTableHeaderCol 1) ++
        (List.range exRectHeaderCol.map.height).map (fun row =>
          if columnIsHeader exRectHeaderCol.map exRectHeaderCol.table (neighborCol 1) = true then
            if 1 = 0 ∨ 1 = exRectHeaderCol.map.width then CellKind.cell
            else kindAtSlot exRectHeaderCol.map exRectHeaderCol.table row 1
          else kindAtSlot exRectHeaderCol.map exRectHeaderCol.table row (neighborCol 1)) :=
  addColumn_inserted_kinds (Tx.mk [] exTableHeaderCol 1) exRectHeaderCol 1 (by decide)

/-- Evaluating `getRowAux` at the index just after all rows: walks to the last section
and answers the insertion point one step before its closing boundary. -/
theorem getRowAux_total (secs : List SectionNode) :
    ∀ rPos prev sIdx, secs ≠ [] → (∀ sec ∈ secs, sec.rows.length ≠ 0) →
      getRowAux (prev + ((secs.map (fun sec => sec.rows.length)).sum)) secs rPos prev sIdx =
        ⟨none, rPos + ((secs.map SectionNode.nodeSize).sum) - 1, sIdx + secs.length⟩ := by
  induction secs with
  | nil => intro _ _ _ hne _; exact absurd rfl hne
  | cons a rest ih =>
    intro rPos prev sIdx _ hall
    have hn : a.rows.length ≠ 0 := hall a (List.mem_cons_self a rest)
    simp only [List.map_cons, List.sum_cons, getRowAux]
    rw [if_pos (by omega)]
    rw [if_pos (by omega)]
    cases rest with
    | nil =>
      rw [if_pos List.isEmpty_nil]
      simp only [List.map_nil, List.sum_nil, List.length_cons, List.length_nil]
      simp [RowResult.mk.injEq]
    | cons b rs =>
      rw [if_neg (by simp)]
      have harg : prev + (a.rows.length + ((b :: rs).map (fun sec => sec.rows.length)).sum) =
          (prev + a.rows.length) + ((b :: rs).map (fun sec => sec.rows.length)).sum := by omega
      rw [harg]
      rw [ih (rPos + a.nodeSize) (prev + a.rows.length) (sIdx + 1) (by simp)
        (fun sec hs => hall sec (List.mem_cons_of_mem a hs))]
      simp only [RowResult.mk.injEq, List.length_cons]
      refine ⟨trivial, by omega, by omega⟩

/-- Evaluating `getRowAux` at the first row of section `k`: the position is one past
the section's opening boundary. -/
theorem getRowAux_section_start (k : Nat) :
    ∀ (secs : List SectionNode) (rPos prev : Nat) (sIdx : Int), k < secs.length →
      (∀ sec ∈ secs, sec.rows.length ≠ 0) →
      getRowAux (prev + (((secs.take k).map (fun sec => sec.rows.length)).sum))
          secs rPos prev sIdx =
        ⟨(secs.getD k ⟨SectionRole.body, []⟩).rows[0]?,
         rPos + (((secs.take k).map SectionNode.nodeSize).sum) + 1, sIdx + k + 1⟩ := by
  induction k with
  | zero =>
    intro secs rPos prev sIdx hk hall
    cases secs with
    | nil => simp at hk
    | cons a rest =>
      have hn : a.rows.length ≠ 0 := hall a (List.mem_cons_self a rest)
      simp only [List.take_zero, List.map_nil, List.sum_nil, Nat.add_zero, getRowAux]
      rw [if_pos (by omega)]
      rw [if_neg (by omega)]
      rw [if_pos (Nat.le_refl prev)]
      simp [rowsSizeUpTo]
  | succ k ih =>
    intro secs rPos prev sIdx hk hall
    cases secs with
    | nil => simp at hk
    | cons a rest =>
      have hn : a.rows.length ≠ 0 := hall a (List.mem_cons_self a rest)
      have hk2 : k < rest.length := by simpa using hk
      simp only [List.take_succ_cons, List.map_cons, List.sum_cons, getRowAux]
      rw [if_pos (by omega)]
      rw [if_pos (by omega)]
      rw [if_neg (by
        cases rest with
        | nil => exact absurd hk2 (by simp)
        | cons b rs => simp)]
      have harg : prev + (a.rows.length + ((rest.take k).map (fun sec => sec.rows.length)).sum) =
          (prev + a.rows.length) + ((rest.take k).map (fun sec => sec.rows.length)).sum := by omega
      rw [harg]
      rw [ih rest (rPos + a.nodeSize) (prev + a.rows.length) (sIdx + 1) hk2
        (fun sec hs => hall sec (List.mem_cons_of_mem a hs))]
      simp only [RowResult.mk.injEq, List.getD_cons_succ]
      refine ⟨trivial, by omega, by omega⟩

/-- Splitting the total node size of a nonempty section list at its last
element. -/
theorem sum_sizes_decomp (l : List SectionNode) (h : l ≠ []) :
    (l.map SectionNode.nodeSize).sum =
      ((l.take (l.length - 1)).map SectionNode.nodeSize).sum +
        (l.getD (l.length - 1) ⟨SectionRole.body, []⟩).nodeSize := by
  induction l with
  | nil => exact absurd rfl h
  | cons a rest ih =>
    cases rest with
    | nil => simp
    | cons b rs =>
      have h2 := ih (by simp)
      have hlen2 : (b :: rs).length - 1 = rs.length := by simp
      rw [hlen2] at h2
      have hlen : (a :: b :: rs).length - 1 = rs.length + 1 := by simp
      rw [hlen]
      have htake : (a :: b :: rs).take (rs.length + 1) = a :: (b :: rs).take rs.length := rfl
      rw [htake]
      rw [List.getD_cons_succ]
      simp only [List.map_cons, List.sum_cons] at h2 ⊢
      omega

/-- The node size of every section is at least 2 (its two boundary
tokens). -/
theorem two_le_sectionNodeSize (s : SectionNode) : 2 ≤ s.nodeSize :=
  Nat.le_add_right 2 _

/-- Claim C7: `getRow` at a logical row index equal to the table's total
row count answers no node, the insertion point immediately after the last
row inside the last section, and the last section's index. -/
theorem getRow_at_rowsCount (t : TableNode)
    (hne : t.sections ≠ []) (hall : ∀ sec ∈ t.sections, sec.rows.length ≠ 0) :
    getRow t (rowsCount t) 0 =
      ⟨none, afterLastRowInsidePos t (t.sections.length - 1),
        (t.sections.length : Int) - 1⟩ := by
  unfold getRow rowsCount
  have h := getRowAux_total t.sections (0 + t.captionNodeSize) 0 (-1) hne hall
  simp only [Nat.zero_add] at h ⊢
  rw [h]
  have hdec := sum_sizes_decomp t.sections hne
  have hlast := two_le_sectionNodeSize (t.sections.getD (t.sections.length - 1)
    ⟨SectionRole.body, []⟩)
  have hlen : 1 ≤ t.sections.length := by
    cases hsec : t.sections with
    | nil => exact absurd hsec hne
    | cons a rest => simp
  simp only [RowResult.mk.injEq]
  refine ⟨trivial, ?_, by omega⟩
  unfold afterLastRowInsidePos sectionStartPos
  have hsz : (t.sections.getD (t.sections.length - 1) ⟨SectionRole.body, []⟩).nodeSize =
      2 + (((t.sections.getD (t.sections.length - 1) ⟨SectionRole.body, []⟩).rows).map
        RowNode.nodeSize).sum := rfl
  omega

/-- Witness for C7 on the two-body example table. -/
theorem getRow_at_rowsCount_witness :
    getRow exTableTwoBodies (rowsCount exTableTwoBodies) 0 =
      ⟨none, afterLastRowInsidePos exTableTwoBodies (exTableTwoBodies.sections.length - 1),
        (exTableTwoBodies.sections.length : Int) - 1⟩ :=
  getRow_at_rowsCount exTableTwoBodies (by decide) (by decide)

/-- Evaluating `rowsInsertGo` at the end-of-rows boundary appends the new row. -/
theorem rowsInsertGo_append (newr : RowNode) :
    ∀ (rows : List RowNode) (q p : Nat), q = p + ((rows.map RowNode.nodeSize).sum) →
      rowsInsertGo q newr p rows = rows ++ [newr] := by
  intro rows
  induction rows with
  | nil =>
    intro q p hq
    simp only [List.map_nil, List.sum_nil, Nat.add_zero] at hq
    subst hq
    simp [rowsInsertGo]
  | cons r rs ih =>
    intro q p hq
    simp only [List.map_cons, List.sum_cons] at hq
    have hsz : 2 ≤ RowNode.nodeSize r := Nat.le_add_right 2 _
    simp only [rowsInsertGo]
    rw [if_neg (by simp only [beq_iff_eq]; omega)]
    rw [ih q (p + r.nodeSize) (by omega)]
    rfl

/-- The walk `rowsInsertGo` leaves the rows unchanged when the target position lies
outside their boundary range. -/
theorem rowsInsertGo_skip (newr : RowNode) :
    ∀ (rows : List RowNode) (q p : Nat),
      (q < p ∨ p + ((rows.map RowNode.nodeSize).sum) < q) →
      rowsInsertGo q newr p rows = rows := by
  intro rows
  induction rows with
  | nil =>
    intro q p hq
    simp only [List.map_nil, List.sum_nil, Nat.add_zero] at hq
    simp only [rowsInsertGo]
    rw [if_neg (by simp only [beq_iff_eq]; omega)]
  | cons r rs ih =>
    intro q p hq
    simp only [List.map_cons, List.sum_cons] at hq
    have hsz : 2 ≤ RowNode.nodeSize r := Nat.le_add_right 2 _
    simp only [rowsInsertGo]
    rw [if_neg (by simp only [beq_iff_eq]; omega)]
    rw [ih q (p + r.nodeSize) (by omega)]

/-- The walk `sectionsInsertRowGo` is the identity when the target position precedes
every section. -/
theorem sectionsInsertRowGo_skip (newr : RowNode) :
    ∀ (l : List SectionNode) (q pos : Nat), q ≤ pos →
      sectionsInsertRowGo q newr pos l = l := by
  intro l
  induction l with
  | nil => intro q pos _; rfl
  | cons a rest ih =>
    intro q pos hq
    simp only [sectionsInsertRowGo]
    rw [rowsInsertGo_skip newr a.rows q (pos + 1) (Or.inl (by omega))]
    rw [ih q (pos + a.nodeSize) (by have := two_le_sectionNodeSize a; omega)]

/-- Evaluating `sectionsInsertRowGo` at the after-last-row boundary of section `k`
appends the row to that section and touches nothing else. -/
theorem sectionsInsertRowGo_at (newr : RowNode) :
    ∀ (k : Nat) (l : List SectionNode) (q pos : Nat), k < l.length →
      q = pos + (((l.take k).map SectionNode.nodeSize).sum) + 1 +
        ((((l.getD k ⟨SectionRole.body, []⟩).rows).map RowNode.nodeSize).sum) →
      sectionsInsertRowGo q newr pos l =
        l.set k ⟨(l.getD k ⟨SectionRole.body, []⟩).role,
          (l.getD k ⟨SectionRole.body, []⟩).rows ++ [newr]⟩ := by
  intro k
  induction k with
  | zero =>
    intro l q pos hk hq
    cases l with
    | nil => simp at hk
    | cons a rest =>
      simp only [List.take_zero, List.map_nil, List.sum_nil, Nat.add_zero,
        List.getD_cons_zero] at hq ⊢
      simp only [sectionsInsertRowGo]
      rw [rowsInsertGo_append newr a.rows q (pos + 1) (by omega)]
      rw [sectionsInsertRowGo_skip newr rest q (pos + a.nodeSize) (by
        have h2 : a.nodeSize = 2 + ((a.rows.map RowNode.nodeSize).sum) := rfl
        omega)]
      rfl
  | succ k ih =>
    intro l q pos hk hq
    cases l with
    | nil => simp at hk
    | cons a rest =>
      have hk2 : k < rest.length := by simpa using hk
      simp only [List.take_succ_cons, List.map_cons, List.sum_cons,
        List.getD_cons_succ] at hq ⊢
      simp only [sectionsInsertRowGo]
      rw [rowsInsertGo_skip newr a.rows q (pos + 1) (Or.inr (by
        have h2 : a.nodeSize = 2 + ((a.rows.map RowNode.nodeSize).sum) := rfl
        omega))]
      rw [ih rest q (pos + a.nodeSize) hk2 (by omega)]
      rfl

/-- Inserting at `afterLastRowInsidePos` appends the row to section `k`. -/
theorem insertRowAt_afterLast (t : TableNode) (k : Nat) (newr : RowNode)
    (hk : k < t.sections.length) :
    t.insertRowAt (afterLastRowInsidePos t k) newr =
      ⟨t.captionContent, t.sections.set k ⟨(t.sections.getD k ⟨SectionRole.body, []⟩).role,
        (t.sections.getD k ⟨SectionRole.body, []⟩).rows ++ [newr]⟩⟩ := by
  unfold TableNode.insertRowAt
  rw [sectionsInsertRowGo_at newr k t.sections _ t.captionNodeSize hk (by
    unfold afterLastRowInsidePos sectionStartPos
    omega)]

/-- With all sections nonempty, the row prefix of a proper section prefix
is strictly below the total row count. -/
theorem prefixRows_lt_rowsCount (t : TableNode) (m : Nat)
    (hm : m < t.sections.length)
    (hall : ∀ sec ∈ t.sections, sec.rows.length ≠ 0) :
    prefixRows t m < rowsCount t := by
  unfold prefixRows rowsCount
  have hsplit : ((t.sections.take m).map (fun s => s.rows.length)).sum +
      ((t.sections.drop m).map (fun s => s.rows.length)).sum =
      (t.sections.map (fun s => s.rows.length)).sum := by
    rw [List.map_take, List.map_drop]
    exact List.sum_take_add_sum_drop ..
  have hdrop : t.sections.drop m = t.sections[m] :: t.sections.drop (m + 1) :=
    List.drop_eq_getElem_cons hm
  have hpos : t.sections[m].rows.length ≠ 0 := hall _ (List.getElem_mem hm)
  rw [hdrop] at hsplit
  simp only [List.map_cons, List.sum_cons] at hsplit
  omega

/-- With a nonempty section list of nonempty sections, every positive
row prefix is positive. -/
theorem prefixRows_succ_pos (t : TableNode) (m : Nat)
    (hne : t.sections ≠ []) (hall : ∀ sec ∈ t.sections, sec.rows.length ≠ 0) :
    0 < prefixRows t (m + 1) := by
  unfold prefixRows
  cases hsec : t.sections with
  | nil => exact absurd hsec hne
  | cons a rest =>
    have ha : a.rows.length ≠ 0 := by
      apply hall
      rw [hsec]
      exact List.mem_cons_self ..
    simp only [List.take_succ_cons, List.map_cons, List.sum_cons]
    omega

/-- Under the no-rowspan-into-this-row hypothesis, the `addRow` cell loop
adds no transaction step. -/
theorem addRowCellsGo_fst (r : TableRect) (row : Nat) (refRow : Option Nat)
    (hcov : ∀ col, col < r.map.width → ¬(0 < row ∧ row < r.map.height ∧
      r.map.map.getD (row * r.map.width + col) 0 =
        r.map.map.getD (row * r.map.width + col - r.map.width) 0)) :
    ∀ fuel col p, (addRowCellsGo r row refRow fuel col p).1 = p.1 := by
  intro fuel
  induction fuel with
  | zero => intro col p; rfl
  | succ f ih =>
    intro col p
    simp only [addRowCellsGo]
    by_cases hc : col < r.map.width
    · rw [if_pos hc]
      have hguard : ((0 < row && row < r.map.height
          && (r.map.map.getD (row * r.map.width + col) 0
            == r.map.map.getD (row * r.map.width + col - r.map.width) 0)) = false) := by
        have hx := hcov col hc
        simp only [Bool.and_eq_false_iff, decide_eq_false_iff_not, beq_eq_false_iff_ne]
        by_cases h1 : 0 < row
        · by_cases h2 : row < r.map.height
          · right
            intro hcontra
            exact hx ⟨h1, h2, hcontra⟩
          · left
            right
            exact h2
        · left
          left
          exact h1
      rw [if_neg (by rw [hguard]; exact Bool.false_ne_true)]
      cases hnc : (match refRow with
        | none => some (emptyCellOf CellKind.cell)
        | some rr => (r.table.nodeAt (r.map.map.getD (rr * r.map.width + col) 0)).map
            (fun c : CellNode => emptyCellOf c.kind)) with
      | some c => exact ih (col + 1) (p.1, p.2 ++ [c])
      | none => exact ih (col + 1) p
    · rw [if_neg hc]

/-- Claim C5, counterexample: row index 1 of the two-body table falls
directly after the last row of section 0, yet `addRow` invoked with a
rectangle whose bottom is not 1 (the add-before path) inserts the row node
at position 10 — the start of section 1 — not at the insertion point 8
inside section 0, and section 0's row count stays 1. -/
theorem addRow_before_section_cex :
    selectedRect exStateRow1 = some exRectRow1 ∧
    prefixRows exTableTwoBodies 1 = 1 ∧
    isRowLastInSection exTableTwoBodies 0 = true ∧
    exRectRow1.bottom = 2 ∧
    (addRow (Tx.mk [] exTableTwoBodies 1) exRectRow1 1).steps =
      [Step.insertRow 10 [plainCell]] ∧
    1 + afterLastRowInsidePos exTableTwoBodies 0 = 8 ∧
    (addRow (Tx.mk [] exTableTwoBodies 1) exRectRow1 1).doc.sections.map
      (fun sec => sec.rows.length) = [1, 2] := by decide


/-- Claim C5 (amended): with valid sections and no rowspan reaching into
the insertion row, `addRow` appends the new row inside the section ending
just above in exactly these circumstances: at an interior section boundary
(row = prefixRows (k+1), section k+1 existing) only when the rectangle's
bottom equals the row (the add-after path), and after the table's last row
always; in both cases the owning section's row count grows by one. -/
theorem addRow_after_last_row_of_section (tx : Tx) (r : TableRect) (row k : Nat)
    (hall : ∀ sec ∈ r.table.sections, sec.rows.length ≠ 0)
    (hdoc : tx.doc = r.table) (hstart : tx.start = r.tableStart)
    (hcov : ∀ col, col < r.map.width →
      ¬(0 < row ∧ row < r.map.height ∧
        r.map.map.getD (row * r.map.width + col) 0 =
          r.map.map.getD (row * r.map.width + col - r.map.width) 0)) :
    (k + 1 < r.table.sections.length → row = prefixRows r.table (k + 1) → r.bottom = row →
      ∃ cells, addRow tx r row =
        tx.addStep (Step.insertRow (r.tableStart + afterLastRowInsidePos r.table k) cells) ∧
        (addRow tx r row).doc.sections.map (fun sec => sec.rows.length) =
          (r.table.sections.map (fun sec => sec.rows.length)).set k
            ((r.table.sections.getD k ⟨SectionRole.body, []⟩).rows.length + 1)) ∧
    (r.table.sections ≠ [] → row = rowsCount r.table →
      ∃ cells, addRow tx r row =
        tx.addStep (Step.insertRow
          (r.tableStart + afterLastRowInsidePos r.table (r.table.sections.length - 1)) cells) ∧
        (addRow tx r row).doc.sections.map (fun sec => sec.rows.length) =
          (r.table.sections.map (fun sec => sec.rows.length)).set (r.table.sections.length - 1)
            ((r.table.sections.getD (r.table.sections.length - 1)
              ⟨SectionRole.body, []⟩).rows.length + 1)) := by
  constructor
  · intro hk hrow hb
    have hne : r.table.sections ≠ [] := by
      intro he
      rw [he] at hk
      simp at hk
    have hk0 : k < r.table.sections.length := by omega
    have hrpos : 0 < row := by
      rw [hrow]
      exact prefixRows_succ_pos r.table k hne hall
    have hgd : r.table.sections.getD k ⟨SectionRole.body, []⟩ = r.table.sections[k] :=
      List.getD_eq_getElem _ _ hk0
    have hlastT : isRowLastInSection r.table (row - 1) = true := by
      unfold isRowLastInSection
      apply List.any_eq_true.mpr
      refine ⟨k, List.mem_range.mpr hk0, ?_⟩
      simp only [Bool.and_eq_true, decide_eq_true_eq, beq_iff_eq]
      refine ⟨⟨hk, ?_⟩, by omega⟩
      rw [hgd]
      have := hall _ (List.getElem_mem hk0)
      omega
    have hrowpos : rowPos r.table row 0 =
        r.table.captionNodeSize
          + (((r.table.sections.take (k + 1)).map SectionNode.nodeSize).sum) + 1 := by
      unfold rowPos getRow
      rw [show row = 0 + (((r.table.sections.take (k + 1)).map
          (fun sec => sec.rows.length)).sum) from by
        unfold prefixRows at hrow
        omega]
      rw [getRowAux_section_start (k + 1) r.table.sections
        (0 + r.table.captionNodeSize) 0 (-1) hk hall]
      simp
    have hdecomp : ((r.table.sections.take (k + 1)).map SectionNode.nodeSize).sum =
        ((r.table.sections.take k).map SectionNode.nodeSize).sum +
          SectionNode.nodeSize r.table.sections[k] := by
      rw [List.take_succ, List.getElem?_eq_getElem hk0]
      simp only [Option.toList_some, List.map_append, List.sum_append,
        List.map_cons, List.map_nil, List.sum_cons, List.sum_nil, Nat.add_zero]
    have hszk : SectionNode.nodeSize r.table.sections[k] =
        2 + (((r.table.sections[k]).rows).map RowNode.nodeSize).sum := rfl
    have haft : afterLastRowInsidePos r.table k =
        r.table.captionNodeSize + ((r.table.sections.take k).map SectionNode.nodeSize).sum
          + 1 + (((r.table.sections[k]).rows).map RowNode.nodeSize).sum := by
      unfold afterLastRowInsidePos sectionStartPos
      rw [hgd]
    unfold addRow
    rw [addRowCellsGo_fst r row (addRowRefRow r.map r.table row) hcov]
    rw [show (if r.bottom == row && 0 < row && isRowLastInSection r.table (row - 1)
        then rowPos r.table row 0 + r.tableStart - 2
        else rowPos r.table row 0 + r.tableStart) =
        r.tableStart + afterLastRowInsidePos r.table k from by
      rw [if_pos (by simp [hb, hrpos, hlastT])]
      rw [hrowpos, haft]
      omega]
    refine ⟨(addRowCellsGo r row (addRowRefRow r.map r.table row)
      r.map.width 0 (tx, [])).2, rfl, ?_⟩
    simp only [Tx.addStep, applyStep]
    rw [hdoc, hstart, Nat.add_sub_cancel_left]
    rw [insertRowAt_afterLast r.table k _ hk0]
    rw [List.map_set]
    simp
  · intro hne hrow
    have hlen1 : 0 < r.table.sections.length := List.length_pos.mpr hne
    have hk0 : r.table.sections.length - 1 < r.table.sections.length := by omega
    have hgd : r.table.sections.getD (r.table.sections.length - 1) ⟨SectionRole.body, []⟩ =
        r.table.sections[r.table.sections.length - 1] := List.getD_eq_getElem _ _ hk0
    have hrows1 : 0 < rowsCount r.table := by
      have heq : rowsCount r.table =
          prefixRows r.table ((r.table.sections.length - 1) + 1) := by
        unfold rowsCount prefixRows
        rw [show (r.table.sections.length - 1) + 1 = r.table.sections.length from by omega]
        rw [List.take_length]
      rw [heq]
      exact prefixRows_succ_pos r.table _ hne hall
    have hlastF : isRowLastInSection r.table (row - 1) = false := by
      unfold isRowLastInSection
      apply List.any_eq_false.mpr
      intro k2 hk2
      simp only [Bool.and_eq_true, decide_eq_true_eq, beq_iff_eq, not_and]
      intro hpair heq2
      obtain ⟨hlt, hpos2⟩ := hpair
      have hlt2 := prefixRows_lt_rowsCount r.table (k2 + 1) hlt hall
      omega
    have hrowpos : rowPos r.table row 0 =
        r.table.captionNodeSize + ((r.table.sections.map SectionNode.nodeSize).sum) - 1 := by
      unfold rowPos getRow
      rw [show row = 0 + ((r.table.sections.map (fun sec => sec.rows.length)).sum) from by
        unfold rowsCount at hrow
        omega]
      rw [getRowAux_total r.table.sections (0 + r.table.captionNodeSize) 0 (-1) hne hall]
      simp
    have hdec := sum_sizes_decomp r.table.sections hne
    rw [hgd] at hdec
    have hszk : SectionNode.nodeSize (r.table.sections[r.table.sections.length - 1]) =
        2 + (((r.table.sections[r.table.sections.length - 1]).rows).map RowNode.nodeSize).sum :=
      rfl
    have haft : afterLastRowInsidePos r.table (r.table.sections.length - 1) =
        r.table.captionNodeSize
          + ((r.table.sections.take (r.table.sections.length - 1)).map SectionNode.nodeSize).sum
          + 1
          + (((r.table.sections[r.table.sections.length - 1]).rows).map RowNode.nodeSize).sum := by
      unfold afterLastRowInsidePos sectionStartPos
      rw [hgd]
    unfold addRow
    rw [addRowCellsGo_fst r row (addRowRefRow r.map r.table row) hcov]
    rw [show (if r.bottom == row && 0 < row && isRowLastInSection r.table (row - 1)
        then rowPos r.table row 0 + r.tableStart - 2
        else rowPos r.table row 0 + r.tableStart) =
        r.tableStart + afterLastRowInsidePos r.table (r.table.sections.length - 1) from by
      rw [if_neg (by simp [hlastF])]
      rw [hrowpos, haft]
      omega]
    refine ⟨(addRowCellsGo r row (addRowRefRow r.map r.table row)
      r.map.width 0 (tx, [])).2, rfl, ?_⟩
    simp only [Tx.addStep, applyStep]
    rw [hdoc, hstart, Nat.add_sub_cancel_left]
    rw [insertRowAt_afterLast r.table _ _ hk0]
    rw [List.map_set]
    simp

/-- Witness for the amended C5 theorem: adding after the selected last row
of the two-body table (add-after path at the interior boundary) appends the
row inside section 0. -/
theorem addRow_after_last_row_of_section_witness :
    ∃ cells, addRow (Tx.mk [] exTableTwoBodies 1)
        ⟨0, 0, 1, 1, 1, TableMap.get exTableTwoBodies, exTableTwoBodies⟩ 1 =
      (Tx.mk [] exTableTwoBodies 1).addStep (Step.insertRow
        (1 + afterLastRowInsidePos exTableTwoBodies 0) cells) := by
  obtain ⟨h1, -⟩ := addRow_after_last_row_of_section (Tx.mk [] exTableTwoBodies 1)
    ⟨0, 0, 1, 1, 1, TableMap.get exTableTwoBodies, exTableTwoBodies⟩ 1 0
    (by decide) (by decide) (by decide) (by decide)
  obtain ⟨cells, hc, -⟩ := h1 (by decide) (by decide) (by decide)
  exact ⟨cells, hc⟩
